import Mathlib

/-!
Verification of the reconciliation and currency-normalization engine of the
Data-Preprocessing-Tool repository (flask-server).  The Python source is
shallowly embedded: pandas data frames become lists of records, the per-period
monetary values become exact rationals, association maps become association
lists, and fallible code returns Option or Except values.  Each embedded
definition is translated from one named function of the source files
clean_sales.py, clean_oe.py and cleaning_configurations.py.
-/

namespace DataPrep

/-- Membership-based lookup in an association list with a default, embedding
the Python dict.get(key, default) idiom (first binding wins, as a dict built
from pandas drop_duplicates keeps the first occurrence). -/
def lookupD {κ α : Type} [DecidableEq κ] (m : List (κ × α)) (k : κ) (d : α) : α :=
  match m with
  | [] => d
  | (k₀, v₀) :: rest => if k₀ = k then v₀ else lookupD rest k d

/-- Optional lookup in an association list, embedding Python dict indexing
that raises KeyError when the key is absent. -/
def lookupOpt {κ α : Type} [DecidableEq κ] (m : List (κ × α)) (k : κ) : Option α :=
  match m with
  | [] => none
  | (k₀, v₀) :: rest => if k₀ = k then some v₀ else lookupOpt rest k

theorem lookupOpt_eq_none_iff {κ α : Type} [DecidableEq κ]
    (m : List (κ × α)) (k : κ) :
    lookupOpt m k = none ↔ k ∉ m.map Prod.fst := by
  induction m with
  | nil => simp [lookupOpt]
  | cons p rest ih =>
    obtain ⟨k₀, v₀⟩ := p
    by_cases h : k₀ = k
    · subst h
      simp [lookupOpt]
    · simp only [lookupOpt, if_neg h, List.map_cons, List.mem_cons, ih]
      constructor
      · intro h1 h2
        rcases h2 with h2 | h2
        · exact h h2.symm
        · exact h1 h2
      · intro h1 h2
        exact h1 (Or.inr h2)

theorem lookupD_eq_default_of_not_mem {κ α : Type} [DecidableEq κ]
    (m : List (κ × α)) (k : κ) (d : α) (h : k ∉ m.map Prod.fst) :
    lookupD m k d = d := by
  induction m with
  | nil => rfl
  | cons p rest ih =>
    obtain ⟨k₀, v₀⟩ := p
    simp only [List.map_cons, List.mem_cons] at h
    push_neg at h
    rw [lookupD, if_neg (fun hk => h.1 hk.symm), ih h.2]

/-! ## RateTable: get_cross_rates (clean_sales.py lines 131-159, duplicated in
clean_oe.py lines 174-196)

A rates dictionary maps a currency code to its current-year and prior-year
rate.  The Python function wraps the two dict lookups and the two divisions in
a try/except: a KeyError (missing currency, target looked up first) and a
ZeroDivisionError (zero source rate) each print a diagnostic and return
(None, None).  The result is modelled as an explicit sum so that the reported
error carries the same information the printed diagnostics carry. -/

/-- One value of the rates dictionary built by load_currency_rates: the
Current_Year_Rate and Prev_Year_Rate for one currency. -/
structure RateEntry where
  currentYearRate : ℚ
  prevYearRate : ℚ
deriving DecidableEq

/-- Outcome of get_cross_rates: either the pair of cross rates, or the error
case that the Python except-blocks report before returning (None, None). -/
inductive CrossRateResult where
  /-- Both divisions succeeded; carries (cross_rate_current, cross_rate_prev). -/
  | ok (current prev : ℚ)
  /-- KeyError: the named currency code is absent from the rates dict. -/
  | missingCurrency (code : String)
  /-- ZeroDivisionError: the named source currency has a zero rate. -/
  | zeroSourceRate (source : String)
deriving DecidableEq

/-- Embedding of get_cross_rates.  The Python body looks up the target
currency first, then the source currency (so a KeyError names the target when
both are missing), then computes target_rate / source_rate for the current and
the prior period; a zero source rate in either period raises
ZeroDivisionError.  Every error path returns through an except-block. -/
def get_cross_rates (source_curr target_curr : String)
    (rates_dict : List (String × RateEntry)) : CrossRateResult :=
  match lookupOpt rates_dict target_curr with
  | none => .missingCurrency target_curr
  | some target_rates =>
    match lookupOpt rates_dict source_curr with
    | none => .missingCurrency source_curr
    | some source_rates =>
      if source_rates.currentYearRate = 0 ∨ source_rates.prevYearRate = 0 then
        .zeroSourceRate source_curr
      else
        .ok (target_rates.currentYearRate / source_rates.currentYearRate)
          (target_rates.prevYearRate / source_rates.prevYearRate)

/-- The value the Python function actually returns: the rate pair on success
and the sentinel (None, None) on every error path. -/
def get_cross_rates_returned (source_curr target_curr : String)
    (rates_dict : List (String × RateEntry)) : Option (ℚ × ℚ) :=
  match get_cross_rates source_curr target_curr rates_dict with
  | .ok c p => some (c, p)
  | _ => none

/-! ## List ordering helper

The Python comparison loops iterate over sorted(list(set_a | set_b)).  The
union of key sets is modelled as the dedup of the concatenation and the sort
as an insertion sort with a boolean total order; only membership in the
resulting list matters to the claims. -/

/-- Insert an element into a list before the first element it compares
less-or-equal to. -/
def insertLe {α : Type} (le : α → α → Bool) (x : α) : List α → List α
  | [] => [x]
  | y :: ys => if le x y then x :: y :: ys else y :: insertLe le x ys

/-- Insertion sort by a boolean comparison, modelling the Python sorted(). -/
def sortByLe {α : Type} (le : α → α → Bool) : List α → List α
  | [] => []
  | x :: xs => insertLe le x (sortByLe le xs)

theorem mem_insertLe {α : Type} (le : α → α → Bool) (x a : α) (l : List α) :
    a ∈ insertLe le x l ↔ a = x ∨ a ∈ l := by
  induction l with
  | nil => simp [insertLe]
  | cons y ys ih =>
    by_cases h : le x y = true
    · simp [insertLe, h]
    · simp only [insertLe, if_neg h, List.mem_cons, ih]
      tauto

theorem mem_sortByLe {α : Type} (le : α → α → Bool) (a : α) (l : List α) :
    a ∈ sortByLe le l ↔ a ∈ l := by
  induction l with
  | nil => simp [sortByLe]
  | cons x xs ih =>
    simp only [sortByLe, mem_insertLe, List.mem_cons, ih]

/-- Strict lexicographic comparison of character lists by code point, the
ordering Python str comparison uses. -/
def charListLt : List Char → List Char → Bool
  | [], [] => false
  | [], _ :: _ => true
  | _ :: _, [] => false
  | a :: as, b :: bs => decide (a < b) || (decide (a = b) && charListLt as bs)

/-- Boolean strict string ordering used by the Python sorted() on str keys. -/
def strLt (a b : String) : Bool := charListLt a.data b.data

/-- Boolean string ordering used by the Python sorted() on str keys. -/
def strLe (a b : String) : Bool := strLt a b || decide (a = b)

/-- Boolean lexicographic ordering on the 3-part sales grouping key,
matching the Python ordering of sorted() on tuples of str. -/
def tripleLe (a b : String × String × String) : Bool :=
  strLt a.1 b.1 ||
    (decide (a.1 = b.1) &&
      (strLt a.2.1 b.2.1 || (decide (a.2.1 = b.2.1) && strLe a.2.2 b.2.2)))

/-! ## ReconciliationEngine: the three validation comparison loops

generate_sales_validation_data (cleaning_configurations.py lines 92-295),
generate_oe_validation_data (lines 302-560) and generate_pex_validation_data
(lines 567-781) each group the BI side and the Hyperion side onto a common
key, take the union of the key sets, and build one validation row per key.
The embeddings below start where the claims start: after the file parsing and
spreadsheet extraction has produced the grouped maps. -/

/-- Status rule shared by all comparison loops: variance = 5.0 and the status
is Matching exactly when the absolute difference is at most the variance. -/
def validation_status (difference : ℚ) : String :=
  if |difference| ≤ 5 then "Matching" else "Not Matching"

/-- One row of the sales validation sheet (the dict appended to
validation_data inside generate_sales_validation_data). -/
structure SalesValidationRow where
  prodSvc : String
  division : String
  dpc : String
  biActual : ℚ
  biPrior : ℚ
  hypActual : ℚ
  hypPrior : ℚ
  diffActual : ℚ
  diffPrior : ℚ
  statusActual : String
  statusPrior : String
deriving DecidableEq

/-- Body of the sales comparison loop for one group key: BI values default to
(0, 0) for a key absent from the BI map, Hyperion values default to (0, 0)
and are scaled by 1000, the difference is Hyperion minus BI, and each period
gets its status independently. -/
def mkSalesValidationRow
    (bi_map hyperion_map : List ((String × String × String) × ℚ × ℚ))
    (group_key : String × String × String) : SalesValidationRow :=
  let bi_vals := lookupD bi_map group_key (0, 0)
  let hyperion_vals := lookupD hyperion_map group_key (0, 0)
  let hyperion_actual := hyperion_vals.1 * 1000
  let hyperion_prior := hyperion_vals.2 * 1000
  let difference_actual := hyperion_actual - bi_vals.1
  let difference_prior := hyperion_prior - bi_vals.2
  { prodSvc := group_key.1
    division := group_key.2.1
    dpc := group_key.2.2
    biActual := bi_vals.1
    biPrior := bi_vals.2
    hypActual := hyperion_actual
    hypPrior := hyperion_prior
    diffActual := difference_actual
    diffPrior := difference_prior
    statusActual := validation_status difference_actual
    statusPrior := validation_status difference_prior }

/-- Embedding of the comparison section of generate_sales_validation_data:
all_groups is the sorted union of the BI keys and the Hyperion keys, and one
row is built per key.  The Python guard that skips non-3-tuples is vacuous
here because the keys are typed as 3-tuples. -/
def generate_sales_validation_data
    (bi_map hyperion_map : List ((String × String × String) × ℚ × ℚ)) :
    List SalesValidationRow :=
  let all_groups :=
    sortByLe tripleLe ((bi_map.map Prod.fst ++ hyperion_map.map Prod.fst).dedup)
  all_groups.map (mkSalesValidationRow bi_map hyperion_map)

/-- One data row of the processed OE csv reduced to the four columns the OE
validation reads: P2-DPC, Product/Service (both astype(str).str.strip applied)
and the two bookings columns (to_numeric with fillna(0) applied). -/
structure OERow where
  dpc : String
  prodSvc : String
  mtd : ℚ
  py : ℚ
deriving DecidableEq

/-- Pandas groupby-sum read back with .get(key, 0): the sum of the MTD
bookings over the rows carrying the given DPC (0 when no row does). -/
def bi_dpc_sum_mtd (rows : List OERow) (k : String) : ℚ :=
  ((rows.filter (fun r => decide (r.dpc = k))).map OERow.mtd).sum

/-- PY analogue of bi_dpc_sum_mtd. -/
def bi_dpc_sum_py (rows : List OERow) (k : String) : ℚ :=
  ((rows.filter (fun r => decide (r.dpc = k))).map OERow.py).sum

/-- BI SERVICE total: sum of the MTD bookings over rows whose
Product/Service equals SERVICE. -/
def bi_service_total_mtd (rows : List OERow) : ℚ :=
  ((rows.filter (fun r => decide (r.prodSvc = "SERVICE"))).map OERow.mtd).sum

/-- PY analogue of bi_service_total_mtd. -/
def bi_service_total_py (rows : List OERow) : ℚ :=
  ((rows.filter (fun r => decide (r.prodSvc = "SERVICE"))).map OERow.py).sum

/-- Module-level alias table translating Hyperion DPC names to BI DPC names
(cleaning_configurations.py lines 795-797). -/
def HYPERION_TO_BI_DPC_MAP : List (String × String) :=
  [("OEM_SI", "OEM"), ("SI_S", "Standard Industrial"), ("TL", "T&L"),
   ("Misc", "Miscellaneous"), ("Pro", "PRO"), ("AC", "AutoChem"), ("AS_S", "AS")]

/-- Module-level table mapping a BI DPC name to its division
(cleaning_configurations.py lines 788-793). -/
def DPC_TO_DIVISION_MAP : List (String × String) :=
  [("Labtec", "Lab"), ("ANA", "Lab"), ("Ohaus", "Lab"), ("Pipettes", "Lab"),
   ("Biotix", "Lab"), ("AutoChem", "Lab"),
   ("OEM", "Industrial"), ("Standard Industrial", "Industrial"),
   ("T&L", "Industrial"), ("Vehicle", "Industrial"), ("AS", "Industrial"),
   ("Miscellaneous", "Misc"), ("PI", "PI"), ("Retail", "Retail"),
   ("PRO", "PRO"), ("Adjustment figure", "SERVICE")]

/-- The reverse translation inside the OE comparison loop: when the BI-side
key is one of the values of HYPERION_TO_BI_DPC_MAP, look up the first alias
that maps to it; otherwise keep the key itself. -/
def hyperion_key_for (dpc_key : String) : String :=
  if dpc_key ∈ HYPERION_TO_BI_DPC_MAP.map Prod.snd then
    match HYPERION_TO_BI_DPC_MAP.find? (fun p => decide (p.2 = dpc_key)) with
    | some p => p.1
    | none => dpc_key
  else dpc_key

/-- One row of the OE validation sheet. -/
structure OEValidationRow where
  group : String
  biMtd : ℚ
  biPy : ℚ
  hypMtd : ℚ
  hypPy : ℚ
  diffMtd : ℚ
  diffPy : ℚ
  statusMtd : String
  statusPy : String
deriving DecidableEq

/-- Body of the OE comparison loop for one DPC key. -/
def mkOEValidationRow (bi_rows : List OERow)
    (hyperion_dpc_map_mtd hyperion_dpc_map_py : List (String × ℚ))
    (dpc_key : String) : OEValidationRow :=
  let bi_val_mtd := bi_dpc_sum_mtd bi_rows dpc_key
  let bi_val_py := bi_dpc_sum_py bi_rows dpc_key
  let hyperion_key := hyperion_key_for dpc_key
  let hyp_val_mtd := lookupD hyperion_dpc_map_mtd hyperion_key 0 * 1000
  let hyp_val_py := lookupD hyperion_dpc_map_py hyperion_key 0 * 1000
  let diff_mtd := hyp_val_mtd - bi_val_mtd
  let diff_py := hyp_val_py - bi_val_py
  { group := dpc_key
    biMtd := bi_val_mtd
    biPy := bi_val_py
    hypMtd := hyp_val_mtd
    hypPy := hyp_val_py
    diffMtd := diff_mtd
    diffPy := diff_py
    statusMtd := validation_status diff_mtd
    statusPy := validation_status diff_py }

/-- Embedding of the comparison section of generate_oe_validation_data: the
key universe is the sorted union of the BI DPC keys and the
alias-translated Hyperion DPC keys; the keys nan and Adjustment figure are
skipped; one extra SERVICE (Total) row compares the scaled final-row totals
against the BI SERVICE totals. -/
def generate_oe_validation_data (bi_rows : List OERow)
    (hyperion_dpc_map_mtd hyperion_dpc_map_py : List (String × ℚ))
    (last_row_mtd last_row_py : ℚ) : List OEValidationRow :=
  let all_dpc_keys_bi := (bi_rows.map OERow.dpc).dedup
  let all_dpc_keys_hyperion :=
    (hyperion_dpc_map_mtd.map Prod.fst ++ hyperion_dpc_map_py.map Prod.fst).dedup
  let mapped_hyperion_keys :=
    (all_dpc_keys_hyperion.map (fun k => lookupD HYPERION_TO_BI_DPC_MAP k k)).dedup
  let all_dpc_keys := sortByLe strLe ((all_dpc_keys_bi ++ mapped_hyperion_keys).dedup)
  let kept_keys :=
    all_dpc_keys.filter (fun k => decide (k ≠ "nan" ∧ k ≠ "Adjustment figure"))
  let dpc_rows :=
    kept_keys.map (mkOEValidationRow bi_rows hyperion_dpc_map_mtd hyperion_dpc_map_py)
  let hyp_val_mtd_svc := last_row_mtd * 1000
  let hyp_val_py_svc := last_row_py * 1000
  let bi_svc_mtd := bi_service_total_mtd bi_rows
  let bi_svc_py := bi_service_total_py bi_rows
  let diff_mtd_svc := hyp_val_mtd_svc - bi_svc_mtd
  let diff_py_svc := hyp_val_py_svc - bi_svc_py
  dpc_rows ++
    [{ group := "SERVICE (Total)"
       biMtd := bi_svc_mtd
       biPy := bi_svc_py
       hypMtd := hyp_val_mtd_svc
       hypPy := hyp_val_py_svc
       diffMtd := diff_mtd_svc
       diffPy := diff_py_svc
       statusMtd := validation_status diff_mtd_svc
       statusPy := validation_status diff_py_svc }]

/-- One row of the PEX validation sheet. -/
structure PexValidationRow where
  group : String
  biActual : ℚ
  biPrior : ℚ
  hypActual : ℚ
  hypPrior : ℚ
  diffActual : ℚ
  diffPrior : ℚ
  statusActual : String
  statusPrior : String
deriving DecidableEq

/-- Body of the PEX comparison loop for one Group key.  The bi_grouped input
is the groupby result (Group, actual, prior); the reserved key Total Period
Expense reads the whole-file totals instead of a group lookup. -/
def mkPexValidationRow (bi_grouped : List (String × ℚ × ℚ))
    (hyperion_map : List (String × ℚ × ℚ)) (group : String) : PexValidationRow :=
  let bi_total_actual := (bi_grouped.map (fun r => r.2.1)).sum
  let bi_total_prior := (bi_grouped.map (fun r => r.2.2)).sum
  let bi_vals :=
    if group = "Total Period Expense" then (bi_total_actual, bi_total_prior)
    else
      match bi_grouped.find? (fun r => decide (r.1 = group)) with
      | some r => r.2
      | none => (0, 0)
  let hyperion_vals := lookupD hyperion_map group (0, 0)
  let hyperion_actual := hyperion_vals.1 * 1000
  let hyperion_prior := hyperion_vals.2 * 1000
  let difference_actual := hyperion_actual - bi_vals.1
  let difference_prior := hyperion_prior - bi_vals.2
  { group := group
    biActual := bi_vals.1
    biPrior := bi_vals.2
    hypActual := hyperion_actual
    hypPrior := hyperion_prior
    diffActual := difference_actual
    diffPrior := difference_prior
    statusActual := validation_status difference_actual
    statusPrior := validation_status difference_prior }

/-- Embedding of the comparison section of generate_pex_validation_data: the
key universe is the sorted union of the BI groups and the Hyperion groups,
skipping nan. -/
def generate_pex_validation_data (bi_grouped : List (String × ℚ × ℚ))
    (hyperion_map : List (String × ℚ × ℚ)) : List PexValidationRow :=
  let all_groups :=
    sortByLe strLe ((bi_grouped.map Prod.fst ++ hyperion_map.map Prod.fst).dedup)
  (all_groups.filter (fun g => decide (g ≠ "nan"))).map
    (mkPexValidationRow bi_grouped hyperion_map)

/-! ## Shared lemmas -/

theorem validation_status_eq_matching_iff (d : ℚ) :
    validation_status d = "Matching" ↔ |d| ≤ 5 := by
  unfold validation_status
  by_cases h : |d| ≤ 5
  · rw [if_pos h]
    simp [h]
  · rw [if_neg h]
    constructor
    · intro hcontra
      exact absurd hcontra (by decide)
    · intro hcontra
      exact absurd hcontra h

theorem bi_dpc_sum_mtd_eq_zero_of_not_mem (rows : List OERow) (k : String)
    (h : k ∉ rows.map OERow.dpc) : bi_dpc_sum_mtd rows k = 0 := by
  unfold bi_dpc_sum_mtd
  have hf : rows.filter (fun r => decide (r.dpc = k)) = [] := by
    rw [List.filter_eq_nil_iff]
    intro r hr
    simp only [decide_eq_true_eq]
    intro hk
    exact h (List.mem_map.mpr ⟨r, hr, hk⟩)
  rw [hf]
  rfl

theorem bi_dpc_sum_py_eq_zero_of_not_mem (rows : List OERow) (k : String)
    (h : k ∉ rows.map OERow.dpc) : bi_dpc_sum_py rows k = 0 := by
  unfold bi_dpc_sum_py
  have hf : rows.filter (fun r => decide (r.dpc = k)) = [] := by
    rw [List.filter_eq_nil_iff]
    intro r hr
    simp only [decide_eq_true_eq]
    intro hk
    exact h (List.mem_map.mpr ⟨r, hr, hk⟩)
  rw [hf]
  rfl

/-! ## Claim C1 -/

/-- Claim C1: in every validation row produced by the sales, OE and PEX
reconciliation comparisons, the per-period status is Matching if and only if
the absolute value of the truth value minus the subject value is at most 5.0,
independently per period; at the boundary a difference of exactly 5.00 is
Matching and a difference of 5.01 is Not Matching. -/
theorem C1_status_matching_iff_within_tolerance :
    (∀ bi_map hyperion_map row, row ∈ generate_sales_validation_data bi_map hyperion_map →
      (row.statusActual = "Matching" ↔ |row.hypActual - row.biActual| ≤ 5) ∧
      (row.statusPrior = "Matching" ↔ |row.hypPrior - row.biPrior| ≤ 5)) ∧
    (∀ bi_rows hm hp lm lp row, row ∈ generate_oe_validation_data bi_rows hm hp lm lp →
      (row.statusMtd = "Matching" ↔ |row.hypMtd - row.biMtd| ≤ 5) ∧
      (row.statusPy = "Matching" ↔ |row.hypPy - row.biPy| ≤ 5)) ∧
    (∀ bi_grouped hyperion_map row, row ∈ generate_pex_validation_data bi_grouped hyperion_map →
      (row.statusActual = "Matching" ↔ |row.hypActual - row.biActual| ≤ 5) ∧
      (row.statusPrior = "Matching" ↔ |row.hypPrior - row.biPrior| ≤ 5)) ∧
    validation_status 5 = "Matching" ∧ validation_status (501 / 100) = "Not Matching" := by
  have h5 : validation_status 5 = "Matching" := by
    unfold validation_status
    rw [if_pos (by norm_num)]
  have h501 : validation_status (501 / 100) = "Not Matching" := by
    unfold validation_status
    rw [if_neg]
    rw [abs_of_nonneg (by norm_num)]
    norm_num
  refine ⟨?_, ?_, ?_, h5, h501⟩
  · intro bi_map hyperion_map row hrow
    obtain ⟨k, _, rfl⟩ := List.mem_map.mp hrow
    exact ⟨validation_status_eq_matching_iff _, validation_status_eq_matching_iff _⟩
  · intro bi_rows hm hp lm lp row hrow
    rcases List.mem_append.mp hrow with hmem | hmem
    · obtain ⟨k, _, rfl⟩ := List.mem_map.mp hmem
      exact ⟨validation_status_eq_matching_iff _, validation_status_eq_matching_iff _⟩
    · rw [List.mem_singleton] at hmem
      subst hmem
      exact ⟨validation_status_eq_matching_iff _, validation_status_eq_matching_iff _⟩
  · intro bi_grouped hyperion_map row hrow
    obtain ⟨k, _, rfl⟩ := List.mem_map.mp hrow
    exact ⟨validation_status_eq_matching_iff _, validation_status_eq_matching_iff _⟩

/-- Witness for C1 at concrete inputs: one sales row, one OE row and one PEX
row taken from concretely evaluated validation outputs. -/
theorem C1_status_matching_iff_within_tolerance_witness :
    ((mkSalesValidationRow [] [(("PRODUCT", "Lab", "OEM"), (1, 2))]
        ("PRODUCT", "Lab", "OEM")).statusActual = "Matching" ↔
      |(mkSalesValidationRow [] [(("PRODUCT", "Lab", "OEM"), (1, 2))]
        ("PRODUCT", "Lab", "OEM")).hypActual -
        (mkSalesValidationRow [] [(("PRODUCT", "Lab", "OEM"), (1, 2))]
        ("PRODUCT", "Lab", "OEM")).biActual| ≤ 5) ∧
    ((mkOEValidationRow [] [("OEM_SI", 1)] [] "OEM").statusMtd = "Matching" ↔
      |(mkOEValidationRow [] [("OEM_SI", 1)] [] "OEM").hypMtd -
        (mkOEValidationRow [] [("OEM_SI", 1)] [] "OEM").biMtd| ≤ 5) ∧
    ((mkPexValidationRow [("Rent", 7, 0)] [] "Rent").statusActual = "Matching" ↔
      |(mkPexValidationRow [("Rent", 7, 0)] [] "Rent").hypActual -
        (mkPexValidationRow [("Rent", 7, 0)] [] "Rent").biActual| ≤ 5) :=
  ⟨(C1_status_matching_iff_within_tolerance.1 [] [(("PRODUCT", "Lab", "OEM"), (1, 2))]
      _ (List.mem_map.mpr ⟨("PRODUCT", "Lab", "OEM"), by decide, rfl⟩)).1,
   (C1_status_matching_iff_within_tolerance.2.1 [] [("OEM_SI", 1)] [] 0 0
      _ (List.mem_append.mpr (Or.inl (List.mem_map.mpr ⟨"OEM", by decide, rfl⟩)))).1,
   (C1_status_matching_iff_within_tolerance.2.2.1 [("Rent", 7, 0)] []
      _ (List.mem_map.mpr ⟨"Rent", by decide, rfl⟩)).1⟩

/-! ## Claim C2 -/

/-- Claim C2 counterexample: with an empty BI side and a single truth-side key
whose value is 1/250 (scaled by 1000 to 4, inside the 5.0 tolerance), the
whole validation output is one row with subject values 0 whose status is
Matching in both periods, so the output contains no Not-Matching row for this
truth-only key, contrary to the claim as stated. -/
theorem C2_union_keys_counterexample :
    generate_sales_validation_data [] [(("PRODUCT", "Lab", "OEM"), (1 / 250, 1 / 250))] =
      [{ prodSvc := "PRODUCT", division := "Lab", dpc := "OEM",
         biActual := 0, biPrior := 0, hypActual := 4, hypPrior := 4,
         diffActual := 4, diffPrior := 4,
         statusActual := "Matching", statusPrior := "Matching" }] := by
  have h : generate_sales_validation_data []
      [(("PRODUCT", "Lab", "OEM"), (1 / 250, 1 / 250))] =
      [mkSalesValidationRow [] [(("PRODUCT", "Lab", "OEM"), (1 / 250, 1 / 250))]
        ("PRODUCT", "Lab", "OEM")] := rfl
  rw [h]
  simp only [mkSalesValidationRow, lookupD, validation_status, List.cons.injEq, and_true]
  norm_num

/-- Claim C2 (amended): the comparison key universe is the union of the
subject-side and truth-side keys.  A key present only on the truth side still
produces a row whose subject values are 0 and whose differences equal the
scaled truth values (for OE this holds for keys other than the skipped nan
and Adjustment figure sentinels and when the alias translation round-trips);
symmetrically a key present only on the subject side produces a row whose
truth values are 0.  The status of such a row is Not-Matching exactly when
the absolute difference exceeds the 5.0 tolerance, not unconditionally. -/
theorem C2_union_keys_amended :
    (∀ (bi_map hyperion_map : List ((String × String × String) × ℚ × ℚ))
        (k : String × String × String),
      k ∈ hyperion_map.map Prod.fst → k ∉ bi_map.map Prod.fst →
      ∃ row ∈ generate_sales_validation_data bi_map hyperion_map,
        row.prodSvc = k.1 ∧ row.division = k.2.1 ∧ row.dpc = k.2.2 ∧
        row.biActual = 0 ∧ row.biPrior = 0 ∧
        row.hypActual = (lookupD hyperion_map k (0, 0)).1 * 1000 ∧
        row.hypPrior = (lookupD hyperion_map k (0, 0)).2 * 1000 ∧
        row.diffActual = row.hypActual ∧ row.diffPrior = row.hypPrior ∧
        row.statusActual = validation_status row.diffActual ∧
        row.statusPrior = validation_status row.diffPrior) ∧
    (∀ (bi_map hyperion_map : List ((String × String × String) × ℚ × ℚ))
        (k : String × String × String),
      k ∈ bi_map.map Prod.fst → k ∉ hyperion_map.map Prod.fst →
      ∃ row ∈ generate_sales_validation_data bi_map hyperion_map,
        row.prodSvc = k.1 ∧ row.division = k.2.1 ∧ row.dpc = k.2.2 ∧
        row.hypActual = 0 ∧ row.hypPrior = 0 ∧
        row.biActual = (lookupD bi_map k (0, 0)).1 ∧
        row.biPrior = (lookupD bi_map k (0, 0)).2 ∧
        row.diffActual = -row.biActual ∧ row.diffPrior = -row.biPrior ∧
        row.statusActual = validation_status row.diffActual ∧
        row.statusPrior = validation_status row.diffPrior) ∧
    (∀ (bi_rows : List OERow) (hm hp : List (String × ℚ)) (lm lp : ℚ) (hk bk : String),
      hk ∈ hm.map Prod.fst → bk = lookupD HYPERION_TO_BI_DPC_MAP hk hk →
      bk ∉ bi_rows.map OERow.dpc → bk ≠ "nan" → bk ≠ "Adjustment figure" →
      hyperion_key_for bk = hk →
      ∃ row ∈ generate_oe_validation_data bi_rows hm hp lm lp,
        row.group = bk ∧ row.biMtd = 0 ∧ row.biPy = 0 ∧
        row.hypMtd = lookupD hm hk 0 * 1000 ∧ row.hypPy = lookupD hp hk 0 * 1000 ∧
        row.diffMtd = row.hypMtd ∧ row.diffPy = row.hypPy ∧
        row.statusMtd = validation_status row.diffMtd ∧
        row.statusPy = validation_status row.diffPy) ∧
    (∀ (bi_rows : List OERow) (hm hp : List (String × ℚ)) (lm lp : ℚ) (k : String),
      k ∈ bi_rows.map OERow.dpc → k ≠ "nan" → k ≠ "Adjustment figure" →
      hyperion_key_for k ∉ hm.map Prod.fst → hyperion_key_for k ∉ hp.map Prod.fst →
      ∃ row ∈ generate_oe_validation_data bi_rows hm hp lm lp,
        row.group = k ∧ row.hypMtd = 0 ∧ row.hypPy = 0 ∧
        row.biMtd = bi_dpc_sum_mtd bi_rows k ∧ row.biPy = bi_dpc_sum_py bi_rows k ∧
        row.diffMtd = -row.biMtd ∧ row.diffPy = -row.biPy ∧
        row.statusMtd = validation_status row.diffMtd ∧
        row.statusPy = validation_status row.diffPy) := by
  refine ⟨?_, ?_, ?_, ?_⟩
  · intro bi_map hyperion_map k hk hnk
    refine ⟨mkSalesValidationRow bi_map hyperion_map k, ?_, ?_⟩
    · exact List.mem_map.mpr ⟨k, by
        rw [mem_sortByLe, List.mem_dedup, List.mem_append]
        exact Or.inr hk, rfl⟩
    · have hbi : lookupD bi_map k ((0 : ℚ), (0 : ℚ)) = (0, 0) :=
        lookupD_eq_default_of_not_mem _ _ _ hnk
      simp only [Prod.mk_zero_zero] at hbi
      simp [mkSalesValidationRow, hbi]
  · intro bi_map hyperion_map k hk hnk
    refine ⟨mkSalesValidationRow bi_map hyperion_map k, ?_, ?_⟩
    · exact List.mem_map.mpr ⟨k, by
        rw [mem_sortByLe, List.mem_dedup, List.mem_append]
        exact Or.inl hk, rfl⟩
    · have hhyp : lookupD hyperion_map k ((0 : ℚ), (0 : ℚ)) = (0, 0) :=
        lookupD_eq_default_of_not_mem _ _ _ hnk
      simp only [Prod.mk_zero_zero] at hhyp
      simp [mkSalesValidationRow, hhyp]
  · intro bi_rows hm hp lm lp hk bk hkmem hbk hnbk hnan hadj hround
    refine ⟨mkOEValidationRow bi_rows hm hp bk, ?_, ?_⟩
    · refine List.mem_append.mpr (Or.inl (List.mem_map.mpr ⟨bk, ?_, rfl⟩))
      rw [List.mem_filter]
      refine ⟨?_, by simp [hnan, hadj]⟩
      rw [mem_sortByLe, List.mem_dedup, List.mem_append]
      refine Or.inr ?_
      rw [List.mem_dedup]
      refine List.mem_map.mpr ⟨hk, ?_, hbk.symm⟩
      rw [List.mem_dedup, List.mem_append]
      exact Or.inl hkmem
    · have hmtd : bi_dpc_sum_mtd bi_rows bk = 0 :=
        bi_dpc_sum_mtd_eq_zero_of_not_mem _ _ hnbk
      have hpy : bi_dpc_sum_py bi_rows bk = 0 :=
        bi_dpc_sum_py_eq_zero_of_not_mem _ _ hnbk
      simp [mkOEValidationRow, hmtd, hpy, hround]
  · intro bi_rows hm hp lm lp k hkmem hnan hadj hnm hnp
    refine ⟨mkOEValidationRow bi_rows hm hp k, ?_, ?_⟩
    · refine List.mem_append.mpr (Or.inl (List.mem_map.mpr ⟨k, ?_, rfl⟩))
      rw [List.mem_filter]
      refine ⟨?_, by simp [hnan, hadj]⟩
      rw [mem_sortByLe, List.mem_dedup, List.mem_append]
      refine Or.inl ?_
      rw [List.mem_dedup]
      exact hkmem
    · have hm0 : lookupD hm (hyperion_key_for k) (0 : ℚ) = 0 :=
        lookupD_eq_default_of_not_mem _ _ _ hnm
      have hp0 : lookupD hp (hyperion_key_for k) (0 : ℚ) = 0 :=
        lookupD_eq_default_of_not_mem _ _ _ hnp
      simp [mkOEValidationRow, hm0, hp0]

/-- Witness for C2 at concrete inputs: a truth-only sales key with truth value
100 (scaled to 100000) and a truth-only OE key reached through the
OEM_SI-to-OEM alias. -/
theorem C2_union_keys_amended_witness :
    (∃ row ∈ generate_sales_validation_data [] [(("PRODUCT", "Lab", "OEM"), (100, 100))],
      row.prodSvc = "PRODUCT" ∧ row.division = "Lab" ∧ row.dpc = "OEM" ∧
      row.biActual = 0 ∧ row.biPrior = 0 ∧
      row.hypActual = (lookupD [(("PRODUCT", "Lab", "OEM"), ((100 : ℚ), (100 : ℚ)))]
        ("PRODUCT", "Lab", "OEM") (0, 0)).1 * 1000 ∧
      row.hypPrior = (lookupD [(("PRODUCT", "Lab", "OEM"), ((100 : ℚ), (100 : ℚ)))]
        ("PRODUCT", "Lab", "OEM") (0, 0)).2 * 1000 ∧
      row.diffActual = row.hypActual ∧ row.diffPrior = row.hypPrior ∧
      row.statusActual = validation_status row.diffActual ∧
      row.statusPrior = validation_status row.diffPrior) ∧
    (∃ row ∈ generate_oe_validation_data [] [("OEM_SI", 100)] [] 0 0,
      row.group = "OEM" ∧ row.biMtd = 0 ∧ row.biPy = 0 ∧
      row.hypMtd = lookupD [("OEM_SI", (100 : ℚ))] "OEM_SI" 0 * 1000 ∧
      row.hypPy = lookupD ([] : List (String × ℚ)) "OEM_SI" 0 * 1000 ∧
      row.diffMtd = row.hypMtd ∧ row.diffPy = row.hypPy ∧
      row.statusMtd = validation_status row.diffMtd ∧
      row.statusPy = validation_status row.diffPy) :=
  ⟨C2_union_keys_amended.1 [] [(("PRODUCT", "Lab", "OEM"), (100, 100))]
      ("PRODUCT", "Lab", "OEM") (by decide) (by decide),
   C2_union_keys_amended.2.2.1 [] [("OEM_SI", 100)] [] 0 0 "OEM_SI" "OEM"
      (by decide) (by decide) (by decide) (by decide) (by decide) (by decide)⟩

/-! ## Claims C5 and C6 -/

/-- On reduction of get_cross_rates when both lookups succeed and neither
source rate is zero. -/
theorem get_cross_rates_eq_ok {rates_dict : List (String × RateEntry)}
    {S T : String} {sr tr : RateEntry}
    (hS : lookupOpt rates_dict S = some sr) (hT : lookupOpt rates_dict T = some tr)
    (hz : ¬(sr.currentYearRate = 0 ∨ sr.prevYearRate = 0)) :
    get_cross_rates S T rates_dict =
      .ok (tr.currentYearRate / sr.currentYearRate)
        (tr.prevYearRate / sr.prevYearRate) := by
  unfold get_cross_rates
  rw [hS, hT]
  exact if_neg hz

/-- On reduction of get_cross_rates when both lookups succeed and a source
rate is zero. -/
theorem get_cross_rates_eq_zeroSource {rates_dict : List (String × RateEntry)}
    {S T : String} {sr tr : RateEntry}
    (hS : lookupOpt rates_dict S = some sr) (hT : lookupOpt rates_dict T = some tr)
    (hz : sr.currentYearRate = 0 ∨ sr.prevYearRate = 0) :
    get_cross_rates S T rates_dict = .zeroSourceRate S := by
  unfold get_cross_rates
  rw [hS, hT]
  exact if_pos hz

/-- On reduction of get_cross_rates when the target lookup fails. -/
theorem get_cross_rates_eq_missing_target {rates_dict : List (String × RateEntry)}
    {S T : String} (hT : lookupOpt rates_dict T = none) :
    get_cross_rates S T rates_dict = .missingCurrency T := by
  unfold get_cross_rates
  rw [hT]

/-- On reduction of get_cross_rates when the target lookup succeeds but the
source lookup fails. -/
theorem get_cross_rates_eq_missing_source {rates_dict : List (String × RateEntry)}
    {S T : String} {tr : RateEntry}
    (hS : lookupOpt rates_dict S = none) (hT : lookupOpt rates_dict T = some tr) :
    get_cross_rates S T rates_dict = .missingCurrency S := by
  unfold get_cross_rates
  rw [hS, hT]

/-- Claim C5: get_cross_rates never lets an error escape: the returned value
is the (None, None) sentinel exactly when a currency code is missing from
the rates dict or the source currency has a zero rate in either period; a
missingCurrency report names a code genuinely absent from the dict, and a
zeroSourceRate report names the source currency and is justified by an
actual zero rate.  Totality of the Lean function reflects that every Python
code path returns through the try/except rather than raising. -/
theorem C5_get_cross_rates_reports_errors :
    ∀ (rates_dict : List (String × RateEntry)) (source_curr target_curr : String),
      (get_cross_rates_returned source_curr target_curr rates_dict = none ↔
        (lookupOpt rates_dict target_curr = none ∨
         lookupOpt rates_dict source_curr = none ∨
         ∃ e, lookupOpt rates_dict source_curr = some e ∧
           (e.currentYearRate = 0 ∨ e.prevYearRate = 0))) ∧
      (∀ c, get_cross_rates source_curr target_curr rates_dict = .missingCurrency c →
        lookupOpt rates_dict c = none) ∧
      (∀ c, get_cross_rates source_curr target_curr rates_dict = .zeroSourceRate c →
        c = source_curr ∧ ∃ e, lookupOpt rates_dict source_curr = some e ∧
          (e.currentYearRate = 0 ∨ e.prevYearRate = 0)) := by
  intro rates_dict source_curr target_curr
  rcases ht : lookupOpt rates_dict target_curr with _ | tr
  · have hg := get_cross_rates_eq_missing_target (S := source_curr) ht
    refine ⟨?_, ?_, ?_⟩
    · simp [get_cross_rates_returned, hg, ht]
    · intro c hc
      rw [hg] at hc
      obtain ⟨rfl⟩ := CrossRateResult.missingCurrency.inj hc
      exact ht
    · intro c hc
      rw [hg] at hc
      exact absurd hc (by simp)
  · rcases hs : lookupOpt rates_dict source_curr with _ | sr
    · have hg := get_cross_rates_eq_missing_source hs ht
      refine ⟨?_, ?_, ?_⟩
      · simp [get_cross_rates_returned, hg, hs]
      · intro c hc
        rw [hg] at hc
        obtain ⟨rfl⟩ := CrossRateResult.missingCurrency.inj hc
        exact hs
      · intro c hc
        rw [hg] at hc
        exact absurd hc (by simp)
    · by_cases hz : sr.currentYearRate = 0 ∨ sr.prevYearRate = 0
      · have hg := get_cross_rates_eq_zeroSource hs ht hz
        refine ⟨?_, ?_, ?_⟩
        · constructor
          · intro _
            exact Or.inr (Or.inr ⟨sr, rfl, hz⟩)
          · intro _
            simp [get_cross_rates_returned, hg]
        · intro c hc
          rw [hg] at hc
          exact absurd hc (by simp)
        · intro c hc
          rw [hg] at hc
          obtain ⟨rfl⟩ := CrossRateResult.zeroSourceRate.inj hc
          exact ⟨rfl, sr, rfl, hz⟩
      · have hg := get_cross_rates_eq_ok hs ht hz
        refine ⟨?_, ?_, ?_⟩
        · constructor
          · intro hcontra
            rw [get_cross_rates_returned, hg] at hcontra
            exact absurd hcontra (by simp)
          · rintro (h | h | ⟨e, he, hze⟩)
            · exact absurd h (by simp)
            · exact absurd h (by simp)
            · obtain rfl := Option.some.inj he
              exact absurd hze hz
        · intro c hc
          rw [hg] at hc
          exact absurd hc (by simp)
        · intro c hc
          rw [hg] at hc
          exact absurd hc (by simp)

/-- Witness for C5: applying the error characterization at a one-entry rates
dict shows that asking for the absent EUR code yields the sentinel and that
the reported missing code EUR is indeed absent. -/
theorem C5_get_cross_rates_reports_errors_witness :
    get_cross_rates_returned "USD" "EUR" [("USD", ⟨1, 1⟩)] = none ∧
    lookupOpt [("USD", (⟨1, 1⟩ : RateEntry))] "EUR" = none :=
  ⟨(C5_get_cross_rates_reports_errors [("USD", ⟨1, 1⟩)] "USD" "EUR").1.mpr
      (Or.inl (by decide)),
   (C5_get_cross_rates_reports_errors [("USD", ⟨1, 1⟩)] "USD" "EUR").2.1 "EUR"
      (by decide)⟩

/-- Claim C6: for currency pairs present in the rates dict with nonzero
rates, the cross rate is the reciprocal of the cross rate of the swapped
pair in each period, and the self cross rate of a currency is 1.0 in both
periods.  In the exact-rational model the reciprocal identity is exact; the
Python original satisfies it up to floating rounding. -/
theorem C6_cross_rate_reciprocal_and_identity :
    ∀ (rates_dict : List (String × RateEntry)) (S T : String) (c p c2 p2 : ℚ),
      get_cross_rates S T rates_dict = .ok c p →
      get_cross_rates T S rates_dict = .ok c2 p2 →
      (c = 1 / c2 ∧ p = 1 / p2) ∧
      get_cross_rates S S rates_dict = .ok 1 1 := by
  intro rates_dict S T c p c2 p2 h1 h2
  rcases hS : lookupOpt rates_dict S with _ | sr
  · rw [get_cross_rates_eq_missing_target (S := T) hS] at h2
    exact absurd h2 (by simp)
  · rcases hT : lookupOpt rates_dict T with _ | tr
    · rw [get_cross_rates_eq_missing_target (S := S) hT] at h1
      exact absurd h1 (by simp)
    · by_cases hzs : sr.currentYearRate = 0 ∨ sr.prevYearRate = 0
      · rw [get_cross_rates_eq_zeroSource hS hT hzs] at h1
        exact absurd h1 (by simp)
      · by_cases hzt : tr.currentYearRate = 0 ∨ tr.prevYearRate = 0
        · rw [get_cross_rates_eq_zeroSource hT hS hzt] at h2
          exact absurd h2 (by simp)
        · rw [get_cross_rates_eq_ok hS hT hzs] at h1
          rw [get_cross_rates_eq_ok hT hS hzt] at h2
          push_neg at hzs hzt
          obtain ⟨hc, hp⟩ := CrossRateResult.ok.inj h1
          obtain ⟨hc2, hp2⟩ := CrossRateResult.ok.inj h2
          refine ⟨⟨?_, ?_⟩, ?_⟩
          · rw [← hc, ← hc2, one_div_div]
          · rw [← hp, ← hp2, one_div_div]
          · rw [get_cross_rates_eq_ok hS hS (by push_neg; exact hzs)]
            rw [div_self hzs.1, div_self hzs.2]

/-- Witness for C6 at a concrete two-currency rates dict: the USD to EUR
cross rates (3/2, 5/4) are the reciprocals of the EUR to USD cross rates
(2/3, 4/5), and the USD self rate is (1, 1). -/
theorem C6_cross_rate_reciprocal_and_identity_witness :
    ((3 : ℚ) / 2 = 1 / ((2 : ℚ) / 3) ∧ (5 : ℚ) / 4 = 1 / ((4 : ℚ) / 5)) ∧
    get_cross_rates "USD" "USD" [("USD", ⟨2, 4⟩), ("EUR", ⟨3, 5⟩)] = .ok 1 1 :=
  C6_cross_rate_reciprocal_and_identity [("USD", ⟨2, 4⟩), ("EUR", ⟨3, 5⟩)]
    "USD" "EUR" (3 / 2) (5 / 4) (2 / 3) (4 / 5)
    (by
      have hu : lookupOpt [("USD", (⟨2, 4⟩ : RateEntry)), ("EUR", ⟨3, 5⟩)] "USD" =
          some ⟨2, 4⟩ := by decide
      have he : lookupOpt [("USD", (⟨2, 4⟩ : RateEntry)), ("EUR", ⟨3, 5⟩)] "EUR" =
          some ⟨3, 5⟩ := by decide
      rw [get_cross_rates_eq_ok hu he (by norm_num)])
    (by
      have hu : lookupOpt [("USD", (⟨2, 4⟩ : RateEntry)), ("EUR", ⟨3, 5⟩)] "USD" =
          some ⟨2, 4⟩ := by decide
      have he : lookupOpt [("USD", (⟨2, 4⟩ : RateEntry)), ("EUR", ⟨3, 5⟩)] "EUR" =
          some ⟨3, 5⟩ := by decide
      rw [get_cross_rates_eq_ok he hu (by norm_num)])

/-! ## EntityDirectory: load_directory_info currency map
(clean_oe.py lines 66-94)

The currency-map stage of load_directory_info projects the directory table to
the columns Comp_No_for_OE, SAP_Comp_Code, Original Currency and Conversion
Currency, drops rows with a missing value, converts keys to str, collapses
rows that are identical in all four columns (drop_duplicates, first
occurrence kept), and then aborts the load if any (Comp_No_for_OE,
SAP_Comp_Code) key still occurs more than once, printing the conflicting
rows sorted by key. -/

/-- One raw directory row restricted to the four columns the currency map
reads; missing spreadsheet cells are None. -/
structure RawDirRow where
  comp_no_for_oe : Option String
  sap_comp_code : Option String
  original_currency : Option String
  conversion_currency : Option String
deriving DecidableEq

/-- One fully populated currency row after dropna and astype(str). -/
structure DirCurrencyRow where
  comp_no_for_oe : String
  sap_comp_code : String
  original_currency : String
  conversion_currency : String
deriving DecidableEq

/-- The dropna step: a raw row survives exactly when all four cells are
present. -/
def dropnaRow (r : RawDirRow) : Option DirCurrencyRow :=
  match r.comp_no_for_oe, r.sap_comp_code, r.original_currency, r.conversion_currency with
  | some a, some b, some c, some d =>
      some { comp_no_for_oe := a, sap_comp_code := b,
             original_currency := c, conversion_currency := d }
  | _, _, _, _ => none

/-- Worker for dedupKeepFirst carrying the set of already seen elements. -/
def dedupKeepFirstGo {α : Type} [DecidableEq α] : List α → List α → List α
  | _, [] => []
  | seen, x :: xs =>
    if x ∈ seen then dedupKeepFirstGo seen xs
    else x :: dedupKeepFirstGo (x :: seen) xs

/-- Pandas drop_duplicates with default keep=first: retain the first
occurrence of every distinct element, in order. -/
def dedupKeepFirst {α : Type} [DecidableEq α] (l : List α) : List α :=
  dedupKeepFirstGo [] l

/-- The compound key the duplicate check groups by. -/
def dirKey (r : DirCurrencyRow) : String × String :=
  (r.comp_no_for_oe, r.sap_comp_code)

/-- Boolean lexicographic ordering on the compound key, for the
sort_values(by=key_cols) on the conflicting rows. -/
def pairLe (a b : String × String) : Bool :=
  strLt a.1 b.1 || (decide (a.1 = b.1) && strLe a.2 b.2)

/-- Row ordering induced by the compound key, as sort_values(by=key_cols)
orders whole rows by their key columns. -/
def dirRowLe (a b : DirCurrencyRow) : Bool :=
  pairLe (dirKey a) (dirKey b)

/-- Number of rows of the list carrying the given compound key. -/
def countKey (rows : List DirCurrencyRow) (k : String × String) : Nat :=
  rows.countP (fun r => decide (dirKey r = k))

/-- Embedding of the currency-map stage of load_directory_info: deduplicate
identical rows, then either abort with the conflicting rows (sorted by key,
as printed) when some key still occurs twice, or return the
(Comp_No_for_OE, SAP_Comp_Code) to currency-pair map. -/
def load_directory_currency_map (rows : List RawDirRow) :
    Except (List DirCurrencyRow) (List ((String × String) × String × String)) :=
  let df_currencies := dedupKeepFirst (rows.filterMap dropnaRow)
  let conflicting_data :=
    df_currencies.filter (fun r => decide (2 ≤ countKey df_currencies (dirKey r)))
  if conflicting_data = [] then
    .ok (df_currencies.map
      (fun r => (dirKey r, (r.original_currency, r.conversion_currency))))
  else
    .error (sortByLe dirRowLe conflicting_data)

theorem dedupKeepFirstGo_append_mem {α : Type} [DecidableEq α]
    (l : List α) (x : α) :
    ∀ seen, (x ∈ l ∨ x ∈ seen) →
      dedupKeepFirstGo seen (l ++ [x]) = dedupKeepFirstGo seen l := by
  induction l with
  | nil =>
    intro seen hx
    rcases hx with hx | hx
    · cases hx
    · simp [dedupKeepFirstGo, hx]
  | cons y ys ih =>
    intro seen hx
    by_cases hy : y ∈ seen
    · rw [List.cons_append, dedupKeepFirstGo, if_pos hy, dedupKeepFirstGo, if_pos hy]
      refine ih seen ?_
      rcases hx with hx | hx
      · rcases List.mem_cons.mp hx with rfl | hx
        · exact Or.inr hy
        · exact Or.inl hx
      · exact Or.inr hx
    · rw [List.cons_append, dedupKeepFirstGo, if_neg hy, dedupKeepFirstGo, if_neg hy]
      congr 1
      refine ih (y :: seen) ?_
      rcases hx with hx | hx
      · rcases List.mem_cons.mp hx with rfl | hx
        · exact Or.inr (List.mem_cons_self _ _)
        · exact Or.inl hx
      · exact Or.inr (List.mem_cons_of_mem _ hx)

theorem dedupKeepFirstGo_nodup {α : Type} [DecidableEq α] (l : List α) :
    ∀ seen, (dedupKeepFirstGo seen l).Nodup ∧
      ∀ x ∈ dedupKeepFirstGo seen l, x ∉ seen := by
  induction l with
  | nil =>
    intro seen
    exact ⟨List.nodup_nil, by intro x hx; cases hx⟩
  | cons y ys ih =>
    intro seen
    by_cases hy : y ∈ seen
    · rw [dedupKeepFirstGo, if_pos hy]
      exact ih seen
    · rw [dedupKeepFirstGo, if_neg hy]
      obtain ⟨hnd, hout⟩ := ih (y :: seen)
      refine ⟨List.nodup_cons.mpr ⟨?_, hnd⟩, ?_⟩
      · intro hmem
        exact (hout y hmem) (List.mem_cons_self _ _)
      · intro x hx
        rcases List.mem_cons.mp hx with rfl | hx
        · exact hy
        · exact fun hxs => (hout x hx) (List.mem_cons_of_mem _ hxs)

theorem dedupKeepFirst_nodup {α : Type} [DecidableEq α] (l : List α) :
    (dedupKeepFirst l).Nodup :=
  (dedupKeepFirstGo_nodup l []).1

theorem two_le_length_of_mem_ne {α : Type} {a b : α} {l : List α}
    (ha : a ∈ l) (hb : b ∈ l) (hne : a ≠ b) : 2 ≤ l.length := by
  match l with
  | [] => cases ha
  | [x] =>
    rw [List.mem_singleton] at ha hb
    exact absurd (ha.trans hb.symm) hne
  | x :: y :: t => simp [List.length_cons]

/-! ## Claim C4 -/

/-- Claim C4: in the entity-directory load, an exact duplicate of a row
already present is silently collapsed (appending it changes nothing); when
every compound key determines a unique row the load succeeds with the full
currency map; and when two distinct surviving rows share a compound key the
load is a hard error whose payload enumerates both conflicting rows. -/
theorem C4_directory_duplicates_and_conflicts :
    (∀ (rows : List RawDirRow) (r : RawDirRow), r ∈ rows →
      load_directory_currency_map (rows ++ [r]) = load_directory_currency_map rows) ∧
    (∀ rows : List RawDirRow,
      (∀ r1 ∈ dedupKeepFirst (rows.filterMap dropnaRow),
       ∀ r2 ∈ dedupKeepFirst (rows.filterMap dropnaRow),
        dirKey r1 = dirKey r2 → r1 = r2) →
      load_directory_currency_map rows =
        .ok ((dedupKeepFirst (rows.filterMap dropnaRow)).map
          (fun r => (dirKey r, (r.original_currency, r.conversion_currency))))) ∧
    (∀ (rows : List RawDirRow) (r1 r2 : DirCurrencyRow),
      r1 ∈ dedupKeepFirst (rows.filterMap dropnaRow) →
      r2 ∈ dedupKeepFirst (rows.filterMap dropnaRow) →
      r1 ≠ r2 → dirKey r1 = dirKey r2 →
      ∃ conflicting, load_directory_currency_map rows = .error conflicting ∧
        r1 ∈ conflicting ∧ r2 ∈ conflicting) := by
  refine ⟨?_, ?_, ?_⟩
  · intro rows r hr
    unfold load_directory_currency_map
    have hfm : (rows ++ [r]).filterMap dropnaRow =
        rows.filterMap dropnaRow ++ [r].filterMap dropnaRow := by
      rw [List.filterMap_append]
    rcases hd : dropnaRow r with _ | d
    · rw [hfm]
      simp [List.filterMap, hd]
    · have hdm : d ∈ rows.filterMap dropnaRow :=
        List.mem_filterMap.mpr ⟨r, hr, hd⟩
      rw [hfm]
      have : [r].filterMap dropnaRow = [d] := by simp [List.filterMap, hd]
      rw [this]
      unfold dedupKeepFirst
      rw [dedupKeepFirstGo_append_mem _ _ _ (Or.inl hdm)]
  · intro rows huniq
    unfold load_directory_currency_map
    rw [if_pos]
    rw [List.filter_eq_nil_iff]
    intro r hr
    simp only [decide_eq_true_eq]
    intro h2
    rw [countKey, List.countP_eq_length_filter] at h2
    have hle : ((dedupKeepFirst (rows.filterMap dropnaRow)).filter
        (fun x => decide (dirKey x = dirKey r))).length ≤ 1 := by
      have hnd := (dedupKeepFirst_nodup (rows.filterMap dropnaRow)).filter
        (fun x => decide (dirKey x = dirKey r))
      match hm : (dedupKeepFirst (rows.filterMap dropnaRow)).filter
          (fun x => decide (dirKey x = dirKey r)) with
      | [] => simp
      | [x] => simp
      | x :: y :: t =>
        exfalso
        have hx := List.mem_filter.mp (hm ▸ List.mem_cons_self x (y :: t))
        have hy := List.mem_filter.mp
          (hm ▸ List.mem_cons_of_mem x (List.mem_cons_self y t))
        have hxy : x = y := by
          have h1 := huniq x hx.1 y hy.1
          refine h1 ?_
          have ex := of_decide_eq_true hx.2
          have ey := of_decide_eq_true hy.2
          rw [ex, ey]
        rw [hm] at hnd
        rw [List.nodup_cons] at hnd
        exact hnd.1 (hxy ▸ List.mem_cons_self y t)
    omega
  · intro rows r1 r2 h1 h2 hne hkey
    have hcount : 2 ≤ countKey (dedupKeepFirst (rows.filterMap dropnaRow)) (dirKey r1) := by
      rw [countKey, List.countP_eq_length_filter]
      refine two_le_length_of_mem_ne (a := r1) (b := r2) ?_ ?_ hne
      · exact List.mem_filter.mpr ⟨h1, by simp⟩
      · exact List.mem_filter.mpr ⟨h2, by simp [hkey]⟩
    have hmem1 : r1 ∈ (dedupKeepFirst (rows.filterMap dropnaRow)).filter
        (fun r => decide (2 ≤ countKey (dedupKeepFirst (rows.filterMap dropnaRow)) (dirKey r))) :=
      List.mem_filter.mpr ⟨h1, by simp [hcount]⟩
    have hmem2 : r2 ∈ (dedupKeepFirst (rows.filterMap dropnaRow)).filter
        (fun r => decide (2 ≤ countKey (dedupKeepFirst (rows.filterMap dropnaRow)) (dirKey r))) :=
      List.mem_filter.mpr ⟨h2, by simp [← hkey, hcount]⟩
    have hnil : (dedupKeepFirst (rows.filterMap dropnaRow)).filter
        (fun r => decide (2 ≤ countKey (dedupKeepFirst (rows.filterMap dropnaRow)) (dirKey r))) ≠ [] := by
      intro h
      rw [h] at hmem1
      cases hmem1
    refine ⟨sortByLe dirRowLe
        ((dedupKeepFirst (rows.filterMap dropnaRow)).filter
          (fun r => decide (2 ≤ countKey (dedupKeepFirst (rows.filterMap dropnaRow)) (dirKey r)))),
      ?_, ?_, ?_⟩
    · unfold load_directory_currency_map
      rw [if_neg hnil]
    · rw [mem_sortByLe]
      exact hmem1
    · rw [mem_sortByLe]
      exact hmem2

/-- Witness for C4 at concrete directories: appending an exact duplicate row
leaves the load unchanged; a two-row clean directory loads successfully; and
two rows sharing the key (9005, DK01) with different currencies abort the
load with both rows enumerated. -/
theorem C4_directory_duplicates_and_conflicts_witness :
    (load_directory_currency_map
        [⟨some "9005", some "DK01", some "DKK", some "EUR"⟩,
         ⟨some "9005", some "DK01", some "DKK", some "EUR"⟩] =
      load_directory_currency_map
        [⟨some "9005", some "DK01", some "DKK", some "EUR"⟩]) ∧
    (load_directory_currency_map
        [⟨some "9005", some "DK01", some "DKK", some "EUR"⟩] =
      .ok [((("9005", "DK01") : String × String), ("DKK", "EUR"))]) ∧
    (∃ conflicting, load_directory_currency_map
        [⟨some "9005", some "DK01", some "DKK", some "EUR"⟩,
         ⟨some "9005", some "DK01", some "DKK", some "SEK"⟩] = .error conflicting ∧
      (⟨"9005", "DK01", "DKK", "EUR"⟩ : DirCurrencyRow) ∈ conflicting ∧
      (⟨"9005", "DK01", "DKK", "SEK"⟩ : DirCurrencyRow) ∈ conflicting) :=
  ⟨C4_directory_duplicates_and_conflicts.1
      [⟨some "9005", some "DK01", some "DKK", some "EUR"⟩]
      ⟨some "9005", some "DK01", some "DKK", some "EUR"⟩ (by decide),
   C4_directory_duplicates_and_conflicts.2.1
      [⟨some "9005", some "DK01", some "DKK", some "EUR"⟩] (by decide),
   C4_directory_duplicates_and_conflicts.2.2
      [⟨some "9005", some "DK01", some "DKK", some "EUR"⟩,
       ⟨some "9005", some "DK01", some "DKK", some "SEK"⟩]
      ⟨"9005", "DK01", "DKK", "EUR"⟩ ⟨"9005", "DK01", "DKK", "SEK"⟩
      (by decide) (by decide) (by decide) (by decide)⟩

/-! ## PositionalExtractor guard and batch loop of process_excel_files
(clean_oe.py lines 296-300 inside the per-file try of the batch loop)

The OE batch loop reads each workbook and, before any other processing,
checks whether the sheet's first cell is a string containing the sentinel
phrase in lower case; if so the file is skipped with continue and the loop
moves to the next file. -/

/-- Python str.lower restricted to the ASCII range the data uses, computed
on the character list so that concrete instances evaluate in the kernel. -/
def pyToLower (s : String) : String :=
  ⟨s.data.map Char.toLower⟩

/-- Python str.strip: drop whitespace from both ends of the string. -/
def pyStrip (s : String) : String :=
  ⟨((s.data.dropWhile Char.isWhitespace).reverse.dropWhile Char.isWhitespace).reverse⟩

/-- Whether the first list is a contiguous prefix of the second, by direct
recursion (no library dependence), used for the Python str containment. -/
def charPrefix : List Char → List Char → Bool
  | [], _ => true
  | _ :: _, [] => false
  | n :: ns, h :: hs => decide (n = h) && charPrefix ns hs

/-- Whether the needle occurs contiguously anywhere in the haystack. -/
def charContains (needle : List Char) : List Char → Bool
  | [] => needle.isEmpty
  | h :: hs => charPrefix needle (h :: hs) || charContains needle hs

/-- Embedding of the Python substring test needle in haystack. -/
def pyStrContains (needle hay : String) : Bool :=
  charContains needle.data hay.data

/-- One spreadsheet cell as the guard sees it: a Python str or any other
value (number, NaN, ...), for the isinstance(value, str) test. -/
inductive Cell where
  | str (s : String)
  | other
deriving DecidableEq

/-- The guard of clean_oe.process_excel_files: the data frame is nonempty,
its first cell is a string, and that string lowercased contains the phrase
no applicable data found. -/
def sheet_skip_guard (sheet : List (List Cell)) : Bool :=
  match sheet with
  | (Cell.str s :: _) :: _ => pyStrContains "no applicable data found" (pyToLower s)
  | _ => false

/-- One iteration body of the batch loop up to the guard: a skipped sheet
produces no output, any other sheet is handed to the remainder of the
pipeline (abstracted as rest, itself allowed to skip). -/
def process_one_oe_file {Output : Type} (rest : List (List Cell) → Option Output)
    (sheet : List (List Cell)) : Option Output :=
  if sheet_skip_guard sheet then none else rest sheet

/-- The batch loop of process_excel_files: each successfully processed file
appends one output; a skipped file contributes nothing and the loop
continues with the next file. -/
def process_excel_files_loop {Output : Type} (rest : List (List Cell) → Option Output)
    (sheets : List (List (List Cell))) : List Output :=
  sheets.foldl
    (fun acc sheet =>
      match process_one_oe_file rest sheet with
      | none => acc
      | some o => acc ++ [o]) []

/-! ## Claim C7 -/

/-- Claim C7: a subject sheet whose first cell is a string containing the
phrase no applicable data found in any letter case is skipped whole (zero
output rows, independently of the rest of the pipeline), and the batch loop
treats this as a non-error: deleting such a file from the batch leaves the
outputs of all other files unchanged. -/
theorem C7_sentinel_sheet_skipped :
    (∀ (Output : Type) (rest : List (List Cell) → Option Output)
        (s : String) (row : List Cell) (rows : List (List Cell)),
      pyStrContains "no applicable data found" (pyToLower s) = true →
      process_one_oe_file rest ((Cell.str s :: row) :: rows) = none) ∧
    (∀ (Output : Type) (rest : List (List Cell) → Option Output)
        (pre post : List (List (List Cell))) (bad : List (List Cell)),
      sheet_skip_guard bad = true →
      process_excel_files_loop rest (pre ++ bad :: post) =
        process_excel_files_loop rest (pre ++ post)) := by
  constructor
  · intro Output rest s row rows hs
    unfold process_one_oe_file
    rw [if_pos]
    exact hs
  · intro Output rest pre post bad hbad
    unfold process_excel_files_loop
    rw [List.foldl_append, List.foldl_append, List.foldl_cons]
    have hskip : process_one_oe_file rest bad = none := by
      unfold process_one_oe_file
      rw [if_pos hbad]
    rw [hskip]

/-- Witness for C7: a first cell reading No Applicable Data Found in mixed
case causes the file to be skipped even though the rest of the pipeline
would have produced output, and removing it from a concrete batch leaves
the other outputs unchanged. -/
theorem C7_sentinel_sheet_skipped_witness :
    process_one_oe_file (fun sheet => some sheet)
      [[Cell.str "No Applicable Data Found"]] = none ∧
    process_excel_files_loop (fun sheet => some sheet)
      ([[[Cell.str "data"]]] ++ [[Cell.str "No Applicable Data Found"]] ::
        [[[Cell.str "more data"]]]) =
      process_excel_files_loop (fun sheet => some sheet)
        ([[[Cell.str "data"]]] ++ [[[Cell.str "more data"]]]) :=
  ⟨C7_sentinel_sheet_skipped.1 _ (fun sheet => some sheet)
      "No Applicable Data Found" [] [] (by decide),
   C7_sentinel_sheet_skipped.2 _ (fun sheet => some sheet)
      [[[Cell.str "data"]]] [[[Cell.str "more data"]]]
      [[Cell.str "No Applicable Data Found"]] (by decide)⟩

/-! ## Reclassifier: document-type classification
(clean_oe.py lines 355-401 inside process_excel_files)

The classification step lowercases and strips the Sales doc. type value,
maps it through the module classification_map, and fills unmapped values
with the literal Product; the distinct unmapped normalized strings are
collected and printed for review. -/

/-- The fixed classification lookup table of process_excel_files. -/
def classification_map : List (String × String) :=
  [("mt arm return", "PRODUCT"), ("mt credit memo req", "PRODUCT"),
   ("mt debit memo req", "PRODUCT"), ("mt eco order hybris", "PRODUCT"),
   ("mt epro order b2b", "PRODUCT"), ("mt standard order", "PRODUCT"),
   ("mt rental deb req", "SERVICE"), ("mt svc conf dmr", "SERVICE"),
   ("mt svc contract dmr", "SERVICE"), ("pipette svc order", "SERVICE"),
   ("mt free of charge", "SERVICE"), ("mt int cred memo req", "PRODUCT")]

/-- The normalization astype(str).str.strip().str.lower() applied to the
document-type column before the map lookup. -/
def normalize_doc_type (s : String) : String :=
  pyToLower (pyStrip s)

/-- The per-row classification: map(classification_map) followed by
fillna(Product). -/
def classify_doc_type (s : String) : String :=
  (lookupOpt classification_map (normalize_doc_type s)).getD "Product"

/-- The unmapped-type report: the distinct normalized document types that
are truthy (nonempty) and absent from the classification map, in first
occurrence order, as printed for operator review. -/
def unmapped_doc_types (doc_types : List String) : List String :=
  (dedupKeepFirst (doc_types.map normalize_doc_type)).filter
    (fun t => decide (t ≠ "" ∧ t ∉ classification_map.map Prod.fst))

theorem lookupOpt_eq_some_mem {κ α : Type} [DecidableEq κ]
    {m : List (κ × α)} {k : κ} {v : α} (h : lookupOpt m k = some v) :
    (k, v) ∈ m := by
  induction m with
  | nil => cases h
  | cons p rest ih =>
    obtain ⟨k₀, v₀⟩ := p
    by_cases hk : k₀ = k
    · subst hk
      rw [lookupOpt, if_pos rfl] at h
      obtain rfl := Option.some.inj h
      exact List.mem_cons_self _ _
    · rw [lookupOpt, if_neg hk] at h
      exact List.mem_cons_of_mem _ (ih h)

theorem mem_dedupKeepFirstGo {α : Type} [DecidableEq α] (l : List α) :
    ∀ (seen : List α) (x : α),
      x ∈ dedupKeepFirstGo seen l ↔ (x ∈ l ∧ x ∉ seen) := by
  induction l with
  | nil =>
    intro seen x
    simp [dedupKeepFirstGo]
  | cons y ys ih =>
    intro seen x
    by_cases hy : y ∈ seen
    · rw [dedupKeepFirstGo, if_pos hy, ih]
      constructor
      · intro ⟨hx, hxs⟩
        exact ⟨List.mem_cons_of_mem _ hx, hxs⟩
      · intro ⟨hx, hxs⟩
        rcases List.mem_cons.mp hx with rfl | hx
        · exact absurd hy hxs
        · exact ⟨hx, hxs⟩
    · rw [dedupKeepFirstGo, if_neg hy, List.mem_cons, ih]
      constructor
      · intro h
        rcases h with rfl | ⟨hx, hxs⟩
        · exact ⟨List.mem_cons_self _ _, hy⟩
        · refine ⟨List.mem_cons_of_mem _ hx, fun hs => hxs (List.mem_cons_of_mem _ hs)⟩
      · intro ⟨hx, hxs⟩
        rcases List.mem_cons.mp hx with rfl | hx
        · exact Or.inl rfl
        · by_cases hxy : x = y
          · exact Or.inl hxy
          · refine Or.inr ⟨hx, fun hs => ?_⟩
            rcases List.mem_cons.mp hs with h | h
            · exact hxy h
            · exact hxs h

theorem mem_dedupKeepFirst {α : Type} [DecidableEq α] (l : List α) (x : α) :
    x ∈ dedupKeepFirst l ↔ x ∈ l := by
  rw [dedupKeepFirst, mem_dedupKeepFirstGo]
  simp

/-! ## Claim C9 -/

/-- Claim C9 counterexample: the free-text document type Custom Order is not
in the classification table, and the code classifies it as the literal
Product, which is neither PRODUCT nor SERVICE, so the claimed default of
PRODUCT does not hold as stated. -/
theorem C9_classification_default_counterexample :
    classify_doc_type "Custom Order" = "Product" ∧
    ("Product" ≠ "PRODUCT" ∧ "Product" ≠ "SERVICE") := by
  constructor
  · rfl
  · exact ⟨by decide, by decide⟩

/-- Claim C9 (amended): the document type is normalized by strip and
lowercase and mapped through the fixed table; a mapped value is classified
as PRODUCT or SERVICE, an unmapped value defaults to the literal Product
(title case, unlike the PRODUCT label of mapped product types), and every
distinct nonempty unmapped normalized document-type string appears in the
logged unmapped-type report rather than being silently dropped. -/
theorem C9_classification_default_amended :
    (∀ s : String,
      normalize_doc_type s ∈ classification_map.map Prod.fst →
      classify_doc_type s = "PRODUCT" ∨ classify_doc_type s = "SERVICE") ∧
    (∀ s : String,
      normalize_doc_type s ∉ classification_map.map Prod.fst →
      classify_doc_type s = "Product") ∧
    (∀ (doc_types : List String) (s : String), s ∈ doc_types →
      normalize_doc_type s ∉ classification_map.map Prod.fst →
      normalize_doc_type s ≠ "" →
      normalize_doc_type s ∈ unmapped_doc_types doc_types) := by
  refine ⟨?_, ?_, ?_⟩
  · intro s hmem
    rcases hl : lookupOpt classification_map (normalize_doc_type s) with _ | v
    · rw [lookupOpt_eq_none_iff] at hl
      exact absurd hmem hl
    · have hv : (normalize_doc_type s, v) ∈ classification_map :=
        lookupOpt_eq_some_mem hl
      have hval : v = "PRODUCT" ∨ v = "SERVICE" := by
        have : ∀ p ∈ classification_map, p.2 = "PRODUCT" ∨ p.2 = "SERVICE" := by decide
        exact this _ hv
      unfold classify_doc_type
      rw [hl]
      exact hval
  · intro s hmem
    unfold classify_doc_type
    rw [(lookupOpt_eq_none_iff _ _).mpr hmem]
    rfl
  · intro doc_types s hs hmem hne
    unfold unmapped_doc_types
    refine List.mem_filter.mpr ⟨?_, ?_⟩
    · rw [mem_dedupKeepFirst]
      exact List.mem_map.mpr ⟨s, hs, rfl⟩
    · simp only [decide_eq_true_eq]
      exact ⟨hne, hmem⟩

/-- Witness for C9 at concrete document types: a mapped type classifies to
PRODUCT, an unmapped type defaults to Product, and the unmapped type shows
up in the report of a concrete column. -/
theorem C9_classification_default_amended_witness :
    (classify_doc_type " MT Standard Order " = "PRODUCT" ∨
     classify_doc_type " MT Standard Order " = "SERVICE") ∧
    classify_doc_type "Custom Order" = "Product" ∧
    normalize_doc_type "Custom Order" ∈
      unmapped_doc_types ["MT Standard Order", "Custom Order"] :=
  ⟨C9_classification_default_amended.1 " MT Standard Order " (by decide),
   C9_classification_default_amended.2.1 "Custom Order" (by decide),
   C9_classification_default_amended.2.2 ["MT Standard Order", "Custom Order"]
     "Custom Order" (by decide) (by decide) (by decide)⟩

/-! ## Reclassifier: sales row segregation
(clean_sales.py lines 229-282 _process_segregated_file, lines 283-336
_process_3rd_only_file, lines 438-477 routing inside process_files_to_csv)

The sales pipeline reads the Raw sheet with header=None, so cells are
addressed by integer position; row 0 is the original header row.  An entity
with type MO is segregated to 3RD, PO to IC, MOPO to both; everything else
goes through the fallback 3RD-only filter.  The exact-match filter compares
column index 11 via astype(str).str.strip() == seg_type, the fallback uses
astype(str).str.contains(3RD). -/

/-- One spreadsheet cell of the raw sales sheet: a string or a numeric
value.  The str() image of a numeric cell never equals or contains the tags
3RD and IC, so it is modelled as the empty string for tag comparisons. -/
inductive SCell where
  | s (v : String)
  | num (v : ℚ)
deriving DecidableEq

/-- The astype(str) image of a cell as used in the tag comparisons. -/
def cellStr : SCell → String
  | .s v => v
  | .num _ => ""

/-- astype(str).str.strip() of a cell. -/
def cellTag (c : SCell) : String :=
  pyStrip (cellStr c)

/-- to_numeric(errors=coerce).fillna(0) of a cell. -/
def cellNum : SCell → ℚ
  | .num v => v
  | .s _ => 0

/-- The final column slice .iloc[:, list(range(2, 11)) + [12, 14]]: original
columns C through K plus M and O. -/
def slice_cols (row : List SCell) : List SCell :=
  ((row.drop 2).take 9) ++ ((row.drop 12).take 1) ++ ((row.drop 14).take 1)

/-- The currency-conversion step on the sliced row: positions 9 and 10 (the
sales and PY sales columns originating from M and O) are coerced to numeric
and multiplied by the current and prior cross rates. -/
def convert_row (cross_rate_current cross_rate_prev : ℚ) (row : List SCell) : List SCell :=
  (row.set 9 (.num (cellNum (row.getD 9 (.s "")) * cross_rate_current))).set 10
    (.num (cellNum (row.getD 10 (.s "")) * cross_rate_prev))

/-- Embedding of _process_segregated_file: one pass per requested
segregation type keeping row 0 plus the rows whose stripped column-11 value
equals the type exactly; a type with no matching data rows, or a sheet too
narrow for the C-K, M, O slice, contributes no output; otherwise the header
row is dropped, the currency conversion is applied when a rate differs from
1.0, and one output table is produced per type. -/
def process_segregated_file (df : List (List SCell)) (types_to_create : List String)
    (cross_rate_current cross_rate_prev : ℚ) : List (String × List (List SCell)) :=
  types_to_create.filterMap (fun seg_type =>
    match df with
    | [] => none
    | header_row :: rest =>
      let kept := rest.filter (fun r => decide (cellTag (r.getD 11 (.s "")) = seg_type))
      if kept = [] then none
      else if header_row.length < 15 then none
      else
        let df_final := ((header_row :: kept).map slice_cols).drop 1
        let df_conv :=
          if cross_rate_current ≠ 1 ∨ cross_rate_prev ≠ 1 then
            df_final.map (convert_row cross_rate_current cross_rate_prev)
          else df_final
        if df_conv = [] then none else some (seg_type, df_conv))

/-- Embedding of _process_3rd_only_file: the fallback keeps row 0 plus the
rows whose column-11 string contains 3RD, with the same slice, header drop
and conversion steps, producing at most one output table. -/
def process_3rd_only_file (df : List (List SCell))
    (cross_rate_current cross_rate_prev : ℚ) : Option (List (List SCell)) :=
  match df with
  | [] => none
  | header_row :: rest =>
    let kept := rest.filter (fun r => pyStrContains "3RD" (cellStr (r.getD 11 (.s ""))))
    if kept = [] then none
    else if header_row.length < 15 then none
    else
      let df_final := ((header_row :: kept).map slice_cols).drop 1
      let df_conv :=
        if cross_rate_current ≠ 1 ∨ cross_rate_prev ≠ 1 then
          df_final.map (convert_row cross_rate_current cross_rate_prev)
        else df_final
      if df_conv = [] then none else some df_conv

/-- The routing step of process_files_to_csv: a mapped type MO, PO or MOPO
chooses the segregated pass with its list of tags, any other or missing type
falls through to the 3RD-only fallback.  Fallback outputs are tagged none,
segregated outputs with their tag. -/
def process_sales_file (comp_type : Option String) (df : List (List SCell))
    (cross_rate_current cross_rate_prev : ℚ) :
    List (Option String × List (List SCell)) :=
  let fallback :=
    match process_3rd_only_file df cross_rate_current cross_rate_prev with
    | some tbl => [(none, tbl)]
    | none => []
  match comp_type with
  | some ct =>
    if ct = "MO" then
      (process_segregated_file df ["3RD"] cross_rate_current cross_rate_prev).map
        (fun p => (some p.1, p.2))
    else if ct = "PO" then
      (process_segregated_file df ["IC"] cross_rate_current cross_rate_prev).map
        (fun p => (some p.1, p.2))
    else if ct = "MOPO" then
      (process_segregated_file df ["3RD", "IC"] cross_rate_current cross_rate_prev).map
        (fun p => (some p.1, p.2))
    else fallback
  | none => fallback

/-! ## Claim C8 -/

/-- Claim C8: the sales routing follows the type classification: MO yields
the segregated pass for 3RD only, PO for IC only, MOPO for both tags, and
any other or unknown type the 3RD-only fallback; every table produced by the
segregated pass for tag t consists exactly of the transformed data rows
whose column-11 value stripped of whitespace equals t, and every fallback
table of the rows whose column-11 value contains 3RD. -/
theorem C8_sales_type_segregation :
    (∀ df rc rp, process_sales_file (some "MO") df rc rp =
      (process_segregated_file df ["3RD"] rc rp).map (fun p => (some p.1, p.2))) ∧
    (∀ df rc rp, process_sales_file (some "PO") df rc rp =
      (process_segregated_file df ["IC"] rc rp).map (fun p => (some p.1, p.2))) ∧
    (∀ df rc rp, process_sales_file (some "MOPO") df rc rp =
      (process_segregated_file df ["3RD", "IC"] rc rp).map (fun p => (some p.1, p.2))) ∧
    (∀ ct df rc rp, ct ≠ "MO" → ct ≠ "PO" → ct ≠ "MOPO" →
      process_sales_file (some ct) df rc rp = process_sales_file none df rc rp) ∧
    (∀ df rc rp, process_sales_file none df rc rp =
      match process_3rd_only_file df rc rp with
      | some tbl => [(none, tbl)]
      | none => []) ∧
    (∀ df types rc rp t tbl, (t, tbl) ∈ process_segregated_file df types rc rp →
      t ∈ types ∧
      tbl = (if rc ≠ 1 ∨ rp ≠ 1 then
          ((df.drop 1).filter
            (fun r => decide (cellTag (r.getD 11 (.s "")) = t))).map
            (fun r => convert_row rc rp (slice_cols r))
        else
          ((df.drop 1).filter
            (fun r => decide (cellTag (r.getD 11 (.s "")) = t))).map slice_cols)) ∧
    (∀ df rc rp tbl, process_3rd_only_file df rc rp = some tbl →
      tbl = (if rc ≠ 1 ∨ rp ≠ 1 then
          ((df.drop 1).filter
            (fun r => pyStrContains "3RD" (cellStr (r.getD 11 (.s ""))))).map
            (fun r => convert_row rc rp (slice_cols r))
        else
          ((df.drop 1).filter
            (fun r => pyStrContains "3RD" (cellStr (r.getD 11 (.s ""))))).map
            slice_cols)) := by
  refine ⟨fun df rc rp => rfl, fun df rc rp => rfl, fun df rc rp => rfl,
    ?_, fun df rc rp => rfl, ?_, ?_⟩
  · intro ct df rc rp h1 h2 h3
    show (if ct = "MO" then _ else if ct = "PO" then _ else if ct = "MOPO" then _ else _) = _
    rw [if_neg h1, if_neg h2, if_neg h3]
    rfl
  · intro df types rc rp t tbl hmem
    obtain ⟨seg_type, hseg, heq⟩ := List.mem_filterMap.mp hmem
    match df with
    | [] => cases heq
    | header_row :: rest =>
      simp only at heq
      by_cases hkept : rest.filter
          (fun r => decide (cellTag (r.getD 11 (.s "")) = seg_type)) = []
      · rw [if_pos hkept] at heq
        cases heq
      · rw [if_neg hkept] at heq
        by_cases hw : header_row.length < 15
        · rw [if_pos hw] at heq
          cases heq
        · rw [if_neg hw] at heq
          by_cases hconv : rc ≠ 1 ∨ rp ≠ 1
          · rw [if_pos hconv] at heq
            by_cases hempty : (((header_row :: rest.filter
                (fun r => decide (cellTag (r.getD 11 (.s "")) = seg_type))).map
                slice_cols).drop 1).map (convert_row rc rp) = []
            · rw [if_pos hempty] at heq
              cases heq
            · rw [if_neg hempty] at heq
              obtain ⟨rfl, rfl⟩ := Prod.mk.injEq .. ▸ Option.some.inj heq
              refine ⟨hseg, ?_⟩
              rw [if_pos hconv]
              simp [List.map_cons, List.map_map]
          · rw [if_neg hconv] at heq
            by_cases hempty : ((header_row :: rest.filter
                (fun r => decide (cellTag (r.getD 11 (.s "")) = seg_type))).map
                slice_cols).drop 1 = []
            · rw [if_pos hempty] at heq
              cases heq
            · rw [if_neg hempty] at heq
              obtain ⟨rfl, rfl⟩ := Prod.mk.injEq .. ▸ Option.some.inj heq
              refine ⟨hseg, ?_⟩
              rw [if_neg hconv]
              simp [List.map_cons]
  · intro df rc rp tbl heq
    match df with
    | [] => cases heq
    | header_row :: rest =>
      simp only [process_3rd_only_file] at heq
      by_cases hkept : rest.filter
          (fun r => pyStrContains "3RD" (cellStr (r.getD 11 (.s "")))) = []
      · rw [if_pos hkept] at heq
        cases heq
      · rw [if_neg hkept] at heq
        by_cases hw : header_row.length < 15
        · rw [if_pos hw] at heq
          cases heq
        · rw [if_neg hw] at heq
          by_cases hconv : rc ≠ 1 ∨ rp ≠ 1
          · rw [if_pos hconv] at heq
            by_cases hempty : (((header_row :: rest.filter
                (fun r => pyStrContains "3RD" (cellStr (r.getD 11 (.s ""))))).map
                slice_cols).drop 1).map (convert_row rc rp) = []
            · rw [if_pos hempty] at heq
              cases heq
            · rw [if_neg hempty] at heq
              obtain rfl := Option.some.inj heq
              rw [if_pos hconv]
              simp [List.map_cons, List.map_map]
          · rw [if_neg hconv] at heq
            by_cases hempty : ((header_row :: rest.filter
                (fun r => pyStrContains "3RD" (cellStr (r.getD 11 (.s ""))))).map
                slice_cols).drop 1 = []
            · rw [if_pos hempty] at heq
              cases heq
            · rw [if_neg hempty] at heq
              obtain rfl := Option.some.inj heq
              rw [if_neg hconv]
              simp [List.map_cons]

/-- A concrete raw sales sheet: a 15-column header row, one data row tagged
3RD in column 11 (with surrounding whitespace) and one tagged IC. -/
def C8WitnessDf : List (List SCell) :=
  [List.replicate 15 (SCell.s "h"),
   (List.replicate 15 (SCell.s "a")).set 11 (SCell.s " 3RD "),
   (List.replicate 15 (SCell.s "b")).set 11 (SCell.s "IC")]

/-- Witness for C8 at the concrete sheet: the fallback-routing conjunct for
an unrecognized type, and the segregated-filter characterization applied to
the concretely computed 3RD output of a MOPO segregation. -/
theorem C8_sales_type_segregation_witness :
    (process_sales_file (some "XX") C8WitnessDf 1 1 =
      process_sales_file none C8WitnessDf 1 1) ∧
    ("3RD" ∈ (["3RD", "IC"] : List String) ∧
      ((C8WitnessDf.drop 1).filter
          (fun r => decide (cellTag (r.getD 11 (.s "")) = "3RD"))).map slice_cols =
        (if (1 : ℚ) ≠ 1 ∨ (1 : ℚ) ≠ 1 then
          ((C8WitnessDf.drop 1).filter
            (fun r => decide (cellTag (r.getD 11 (.s "")) = "3RD"))).map
            (fun r => convert_row 1 1 (slice_cols r))
        else
          ((C8WitnessDf.drop 1).filter
            (fun r => decide (cellTag (r.getD 11 (.s "")) = "3RD"))).map slice_cols)) :=
  ⟨C8_sales_type_segregation.2.2.2.1 "XX" C8WitnessDf 1 1
      (by decide) (by decide) (by decide),
   C8_sales_type_segregation.2.2.2.2.2.1 C8WitnessDf ["3RD", "IC"] 1 1
      "3RD" _ (by decide)⟩

/-! ## ReconciliationEngine: add_hyperion_adjustments
(cleaning_configurations.py lines 860-1000)

The adjustment step aggregates the BI table on the DPC column, walks the
Hyperion MTD map (skipping keys containing Total), translates each Hyperion
key to its BI name, and appends one adjustment row carrying truth minus
subject in both bookings columns whenever either absolute difference exceeds
0.001; a final SERVICE row carries the scaled last-row totals.  Every other
column of an appended row holds the sentinel Adjustment figure, with
Product/Service and P1-Division overridden as in the source. -/

/-- One BI data row reduced to the columns add_hyperion_adjustments touches:
the DPC grouping column, the two classification columns it overrides on
adjustment rows, and the two bookings columns. -/
structure AdjRow where
  dpc : String
  prodSvc : String
  division : String
  mtd : ℚ
  py : ℚ
deriving DecidableEq

/-- bi_df.groupby(p2_dpc)[MTD].sum().get(k, 0). -/
def adj_sum_mtd (rows : List AdjRow) (k : String) : ℚ :=
  ((rows.filter (fun r => decide (r.dpc = k))).map AdjRow.mtd).sum

/-- bi_df.groupby(p2_dpc)[PY].sum().get(k, 0). -/
def adj_sum_py (rows : List AdjRow) (k : String) : ℚ :=
  ((rows.filter (fun r => decide (r.dpc = k))).map AdjRow.py).sum

/-- The body of the Hyperion-MTD loop for one (key, value) item: skip keys
containing Total, translate the key through HYPERION_TO_BI_DPC_MAP, compute
both scaled differences against the BI sums, and emit the adjustment row
when either difference exceeds 0.001 in absolute value. -/
def mk_dpc_adjustment (bi_df : List AdjRow)
    (hyperion_dpc_map_py : List (String × ℚ)) (p : String × ℚ) : Option AdjRow :=
  if pyStrContains "Total" p.1 then none
  else
    let bi_dpc_str := lookupD HYPERION_TO_BI_DPC_MAP p.1 p.1
    let bi_value_mtd := adj_sum_mtd bi_df bi_dpc_str
    let bi_value_py := adj_sum_py bi_df bi_dpc_str
    let difference_mtd := p.2 * 1000 - bi_value_mtd
    let hyperion_value_py := lookupD hyperion_dpc_map_py p.1 0
    let difference_py := hyperion_value_py * 1000 - bi_value_py
    if |difference_mtd| > 1 / 1000 ∨ |difference_py| > 1 / 1000 then
      some { dpc := bi_dpc_str, prodSvc := "PRODUCT",
             division := lookupD DPC_TO_DIVISION_MAP bi_dpc_str "Adjustment figure",
             mtd := difference_mtd, py := difference_py }
    else none

/-- Embedding of add_hyperion_adjustments: the original rows, then the
per-DPC adjustment rows in Hyperion map order, then the SERVICE total row
when a scaled last-row total is nonzero beyond 0.001.  The SERVICE row keeps
the sentinel Adjustment figure in the DPC column and gets division SERVICE
because the sentinel maps to SERVICE in DPC_TO_DIVISION_MAP. -/
def add_hyperion_adjustments (bi_df : List AdjRow)
    (hyperion_dpc_map_mtd hyperion_dpc_map_py : List (String × ℚ))
    (last_row_mtd last_row_py : ℚ) : List AdjRow :=
  let adjustments := hyperion_dpc_map_mtd.filterMap (mk_dpc_adjustment bi_df hyperion_dpc_map_py)
  let service_mtd_val := last_row_mtd * 1000
  let service_py_val := last_row_py * 1000
  let service_rows :=
    if |service_mtd_val| > 1 / 1000 ∨ |service_py_val| > 1 / 1000 then
      [{ dpc := "Adjustment figure", prodSvc := "SERVICE",
         division := lookupD DPC_TO_DIVISION_MAP "Adjustment figure" "SERVICE",
         mtd := service_mtd_val, py := service_py_val }]
    else []
  bi_df ++ (adjustments ++ service_rows)

theorem mk_dpc_adjustment_dpc {bi_df : List AdjRow} {hp : List (String × ℚ)}
    {p : String × ℚ} {row : AdjRow} (h : mk_dpc_adjustment bi_df hp p = some row) :
    row.dpc = lookupD HYPERION_TO_BI_DPC_MAP p.1 p.1 := by
  unfold mk_dpc_adjustment at h
  by_cases ht : pyStrContains "Total" p.1
  · rw [if_pos ht] at h
    cases h
  · rw [if_neg (by simpa using ht)] at h
    by_cases hd : |p.2 * 1000 - adj_sum_mtd bi_df (lookupD HYPERION_TO_BI_DPC_MAP p.1 p.1)| > 1 / 1000 ∨
        |lookupD hp p.1 0 * 1000 - adj_sum_py bi_df (lookupD HYPERION_TO_BI_DPC_MAP p.1 p.1)| > 1 / 1000
    · rw [if_pos hd] at h
      obtain rfl := Option.some.inj h
      rfl
    · rw [if_neg hd] at h
      cases h

theorem adjustments_filter_bk_nil (bi_df : List AdjRow) (hp : List (String × ℚ))
    (bk hk : String) :
    ∀ hm : List (String × ℚ),
      (∀ p ∈ hm, lookupD HYPERION_TO_BI_DPC_MAP p.1 p.1 = bk → p.1 = hk) →
      hk ∉ hm.map Prod.fst →
      (hm.filterMap (mk_dpc_adjustment bi_df hp)).filter
        (fun r => decide (r.dpc = bk)) = [] := by
  intro hm
  induction hm with
  | nil => intro _ _; rfl
  | cons q rest ih =>
    intro huniq hnk
    rw [List.filterMap_cons]
    have hnk1 : hk ∉ rest.map Prod.fst := by
      intro h
      exact hnk (List.mem_map.mpr (by
        obtain ⟨x, hx, he⟩ := List.mem_map.mp h
        exact ⟨x, List.mem_cons_of_mem _ hx, he⟩))
    have huniq1 : ∀ p ∈ rest, lookupD HYPERION_TO_BI_DPC_MAP p.1 p.1 = bk → p.1 = hk :=
      fun p hp2 => huniq p (List.mem_cons_of_mem _ hp2)
    rcases hq : mk_dpc_adjustment bi_df hp q with _ | row
    · exact ih huniq1 hnk1
    · rw [List.filter_cons]
      have hdpc : ¬(row.dpc = bk) := by
        intro hr
        have h1 := mk_dpc_adjustment_dpc hq
        have h2 := huniq q (List.mem_cons_self _ _) (h1 ▸ hr)
        exact hnk (h2 ▸ List.mem_map.mpr ⟨q, List.mem_cons_self _ _, rfl⟩)
      rw [if_neg (by simpa using hdpc)]
      exact ih huniq1 hnk1

theorem adjustments_filter_bk_singleton (bi_df : List AdjRow) (hp : List (String × ℚ))
    (bk hk : String) (v : ℚ) :
    ∀ hm : List (String × ℚ),
      (hk, v) ∈ hm → (hm.map Prod.fst).Nodup →
      pyStrContains "Total" hk = false →
      bk = lookupD HYPERION_TO_BI_DPC_MAP hk hk →
      (∀ p ∈ hm, lookupD HYPERION_TO_BI_DPC_MAP p.1 p.1 = bk → p.1 = hk) →
      |v * 1000 - adj_sum_mtd bi_df bk| > 1 / 1000 →
      (hm.filterMap (mk_dpc_adjustment bi_df hp)).filter
          (fun r => decide (r.dpc = bk)) =
        [{ dpc := bk, prodSvc := "PRODUCT",
           division := lookupD DPC_TO_DIVISION_MAP bk "Adjustment figure",
           mtd := v * 1000 - adj_sum_mtd bi_df bk,
           py := lookupD hp hk 0 * 1000 - adj_sum_py bi_df bk }] := by
  intro hm
  induction hm with
  | nil => intro hmem; cases hmem
  | cons q rest ih =>
    intro hmem hnd htot hbk huniq hthr
    have hndtail : (rest.map Prod.fst).Nodup := (List.nodup_cons.mp hnd).2
    have hheadout : q.1 ∉ rest.map Prod.fst := (List.nodup_cons.mp hnd).1
    rw [List.filterMap_cons]
    by_cases hq1 : q.1 = hk
    · have hq : q = (hk, v) := by
        rcases List.mem_cons.mp hmem with h | h
        · exact h.symm
        · exfalso
          refine hheadout ?_
          rw [hq1]
          exact List.mem_map.mpr ⟨(hk, v), h, rfl⟩
      subst hq
      have hmk : mk_dpc_adjustment bi_df hp (hk, v) =
          some { dpc := bk, prodSvc := "PRODUCT",
                 division := lookupD DPC_TO_DIVISION_MAP bk "Adjustment figure",
                 mtd := v * 1000 - adj_sum_mtd bi_df bk,
                 py := lookupD hp hk 0 * 1000 - adj_sum_py bi_df bk } := by
        unfold mk_dpc_adjustment
        rw [if_neg (by simp [htot])]
        simp only [← hbk]
        rw [if_pos (Or.inl hthr)]
      rw [hmk]
      rw [List.filter_cons]
      rw [if_pos (by simp)]
      congr 1
      refine adjustments_filter_bk_nil bi_df hp bk hk rest
        (fun p hp2 => huniq p (List.mem_cons_of_mem _ hp2)) ?_
      simpa using hheadout
    · have hmemtail : (hk, v) ∈ rest := by
        rcases List.mem_cons.mp hmem with h | h
        · exact absurd (congrArg Prod.fst h.symm) hq1
        · exact h
      have htail := ih hmemtail hndtail htot hbk
        (fun p hp2 => huniq p (List.mem_cons_of_mem _ hp2)) hthr
      rcases hq : mk_dpc_adjustment bi_df hp q with _ | row
      · exact htail
      · rw [List.filter_cons]
        have hdpc : ¬(row.dpc = bk) := by
          intro hr
          have h1 := mk_dpc_adjustment_dpc hq
          exact hq1 (huniq q (List.mem_cons_self _ _) (h1 ▸ hr))
        rw [if_neg (by simpa using hdpc)]
        exact htail

theorem adj_sum_mtd_append (a b : List AdjRow) (k : String) :
    adj_sum_mtd (a ++ b) k = adj_sum_mtd a k + adj_sum_mtd b k := by
  unfold adj_sum_mtd
  rw [List.filter_append, List.map_append, List.sum_append]

theorem adj_sum_py_append (a b : List AdjRow) (k : String) :
    adj_sum_py (a ++ b) k = adj_sum_py a k + adj_sum_py b k := by
  unfold adj_sum_py
  rw [List.filter_append, List.map_append, List.sum_append]

theorem adj_sum_mtd_of_filter_eq {rows : List AdjRow} {k : String}
    {d ps dv : String} {m p : ℚ}
    (h : rows.filter (fun x => decide (x.dpc = k)) = [⟨d, ps, dv, m, p⟩]) :
    adj_sum_mtd rows k = m := by
  unfold adj_sum_mtd
  rw [h]
  simp

theorem adj_sum_py_of_filter_eq {rows : List AdjRow} {k : String}
    {d ps dv : String} {m p : ℚ}
    (h : rows.filter (fun x => decide (x.dpc = k)) = [⟨d, ps, dv, m, p⟩]) :
    adj_sum_py rows k = p := by
  unfold adj_sum_py
  rw [h]
  simp

/-! ## Claim C3 -/

/-- Claim C3: for a Hyperion DPC key (not containing Total, translated
through the alias table to a BI name that no other Hyperion key reaches and
that differs from the Adjustment figure sentinel) whose scaled truth value
differs from the aggregated subject bookings by more than 0.001,
add_hyperion_adjustments appends exactly one adjustment row carrying truth
minus subject in the MTD and PY bookings columns, so that re-aggregating the
amended table on that key equals the scaled truth values and a subsequent
comparison is Matching. -/
theorem C3_adjustment_row_reconciles :
    ∀ (bi_df : List AdjRow) (hm hp : List (String × ℚ)) (lm lp : ℚ)
      (hk bk : String) (v : ℚ),
      (hk, v) ∈ hm →
      (hm.map Prod.fst).Nodup →
      pyStrContains "Total" hk = false →
      bk = lookupD HYPERION_TO_BI_DPC_MAP hk hk →
      (∀ p ∈ hm, lookupD HYPERION_TO_BI_DPC_MAP p.1 p.1 = bk → p.1 = hk) →
      bk ≠ "Adjustment figure" →
      |v * 1000 - adj_sum_mtd bi_df bk| > 1 / 1000 →
      ((add_hyperion_adjustments bi_df hm hp lm lp).drop bi_df.length).filter
          (fun r => decide (r.dpc = bk)) =
        [{ dpc := bk, prodSvc := "PRODUCT",
           division := lookupD DPC_TO_DIVISION_MAP bk "Adjustment figure",
           mtd := v * 1000 - adj_sum_mtd bi_df bk,
           py := lookupD hp hk 0 * 1000 - adj_sum_py bi_df bk }] ∧
      adj_sum_mtd (add_hyperion_adjustments bi_df hm hp lm lp) bk = v * 1000 ∧
      adj_sum_py (add_hyperion_adjustments bi_df hm hp lm lp) bk =
        lookupD hp hk 0 * 1000 ∧
      validation_status
        (v * 1000 - adj_sum_mtd (add_hyperion_adjustments bi_df hm hp lm lp) bk) =
        "Matching" := by
  intro bi_df hm hp lm lp hk bk v hmem hnd htot hbk huniq hsent hthr
  have hsingle := adjustments_filter_bk_singleton bi_df hp bk hk v hm
    hmem hnd htot hbk huniq hthr
  have hservice : (if |lm * 1000| > 1 / 1000 ∨ |lp * 1000| > 1 / 1000 then
      [({ dpc := "Adjustment figure", prodSvc := "SERVICE",
          division := lookupD DPC_TO_DIVISION_MAP "Adjustment figure" "SERVICE",
          mtd := lm * 1000, py := lp * 1000 } : AdjRow)]
    else []).filter (fun r => decide (r.dpc = bk)) = [] := by
    by_cases hs : |lm * 1000| > 1 / 1000 ∨ |lp * 1000| > 1 / 1000
    · rw [if_pos hs, List.filter_cons]
      rw [if_neg (by simpa using fun h => hsent h.symm)]
      rfl
    · rw [if_neg hs]
      rfl
  have happended : (add_hyperion_adjustments bi_df hm hp lm lp).drop bi_df.length =
      hm.filterMap (mk_dpc_adjustment bi_df hp) ++
        (if |lm * 1000| > 1 / 1000 ∨ |lp * 1000| > 1 / 1000 then
          [({ dpc := "Adjustment figure", prodSvc := "SERVICE",
              division := lookupD DPC_TO_DIVISION_MAP "Adjustment figure" "SERVICE",
              mtd := lm * 1000, py := lp * 1000 } : AdjRow)]
        else []) := by
    unfold add_hyperion_adjustments
    rw [List.drop_left]
  have hfilter : ((add_hyperion_adjustments bi_df hm hp lm lp).drop bi_df.length).filter
      (fun r => decide (r.dpc = bk)) =
      [{ dpc := bk, prodSvc := "PRODUCT",
         division := lookupD DPC_TO_DIVISION_MAP bk "Adjustment figure",
         mtd := v * 1000 - adj_sum_mtd bi_df bk,
         py := lookupD hp hk 0 * 1000 - adj_sum_py bi_df bk }] := by
    rw [happended, List.filter_append, hsingle, hservice, List.append_nil]
  have hsplit : add_hyperion_adjustments bi_df hm hp lm lp =
      bi_df ++ (add_hyperion_adjustments bi_df hm hp lm lp).drop bi_df.length := by
    rw [happended]
    unfold add_hyperion_adjustments
    rfl
  have hsummtd : adj_sum_mtd (add_hyperion_adjustments bi_df hm hp lm lp) bk = v * 1000 := by
    conv_lhs => rw [hsplit]
    rw [adj_sum_mtd_append, adj_sum_mtd_of_filter_eq hfilter]
    ring
  have hsumpy : adj_sum_py (add_hyperion_adjustments bi_df hm hp lm lp) bk =
      lookupD hp hk 0 * 1000 := by
    conv_lhs => rw [hsplit]
    rw [adj_sum_py_append, adj_sum_py_of_filter_eq hfilter]
    ring
  refine ⟨hfilter, hsummtd, hsumpy, ?_⟩
  rw [hsummtd, sub_self]
  unfold validation_status
  rw [if_pos (by norm_num)]

/-- Witness for C3 at the end-to-end scenario of the spec scaled to integer
data: subject OEM bookings 1000, truth map OEM_SI with value 2 (scaled to
2000) reached through the OEM_SI-to-OEM alias, giving one adjustment row of
1000 and a re-aggregated OEM total of 2000 with a Matching comparison. -/
theorem C3_adjustment_row_reconciles_witness :
    ((add_hyperion_adjustments [⟨"OEM", "PRODUCT", "Industrial", 1000, 0⟩]
        [("OEM_SI", 2)] [("OEM_SI", 0)] 0 0).drop
          ([⟨"OEM", "PRODUCT", "Industrial", (1000 : ℚ), 0⟩] : List AdjRow).length).filter
        (fun r => decide (r.dpc = "OEM")) =
      [{ dpc := "OEM", prodSvc := "PRODUCT",
         division := lookupD DPC_TO_DIVISION_MAP "OEM" "Adjustment figure",
         mtd := 2 * 1000 - adj_sum_mtd [⟨"OEM", "PRODUCT", "Industrial", 1000, 0⟩] "OEM",
         py := lookupD [("OEM_SI", (0 : ℚ))] "OEM_SI" 0 * 1000 -
           adj_sum_py [⟨"OEM", "PRODUCT", "Industrial", 1000, 0⟩] "OEM" }] ∧
    adj_sum_mtd (add_hyperion_adjustments [⟨"OEM", "PRODUCT", "Industrial", 1000, 0⟩]
        [("OEM_SI", 2)] [("OEM_SI", 0)] 0 0) "OEM" = 2 * 1000 ∧
    adj_sum_py (add_hyperion_adjustments [⟨"OEM", "PRODUCT", "Industrial", 1000, 0⟩]
        [("OEM_SI", 2)] [("OEM_SI", 0)] 0 0) "OEM" =
      lookupD [("OEM_SI", (0 : ℚ))] "OEM_SI" 0 * 1000 ∧
    validation_status (2 * 1000 -
      adj_sum_mtd (add_hyperion_adjustments [⟨"OEM", "PRODUCT", "Industrial", 1000, 0⟩]
        [("OEM_SI", 2)] [("OEM_SI", 0)] 0 0) "OEM") = "Matching" :=
  C3_adjustment_row_reconciles [⟨"OEM", "PRODUCT", "Industrial", 1000, 0⟩]
    [("OEM_SI", 2)] [("OEM_SI", 0)] 0 0 "OEM_SI" "OEM" 2
    (by decide) (by decide) (by decide) (by decide) (by decide) (by decide)
    (by
      have h : adj_sum_mtd [(⟨"OEM", "PRODUCT", "Industrial", 1000, 0⟩ : AdjRow)] "OEM" =
          1000 := by
        unfold adj_sum_mtd
        norm_num [List.filter]
      rw [h]
      norm_num)

/-! ## GroupMerger: remove_duplicate_files and _get_file_content_hash
(cleaning_configurations.py lines 1680-1768)

The duplicate detector hashes each output file by a canonical string of its
table (columns reindexed in sorted order, rows sorted by all column values)
and keeps the first file per hash in list order, deleting later ones from
disk.  A file whose path exists but cannot be read or hashed, and a file of
an unsupported extension, get their file path in place of the hash; a file
whose path does not exist is skipped entirely.  In the model the hash is the
canonical table itself (the md5 of the canonical string is injective up to
hash collision, and a hex digest never collides with a path), so equal keys
mean equal canonical content. -/

/-- One tabular file as read back by pandas: named columns and data rows. -/
structure Table where
  header : List String
  rows : List (List String)
deriving DecidableEq

/-- Lexicographic ordering of whole rows, as sort_values(by=all columns). -/
def rowLe : List String → List String → Bool
  | [], _ => true
  | _ :: _, [] => false
  | a :: as, b :: bs => if a = b then rowLe as bs else strLe a b

/-- The canonical form hashed by _get_file_content_hash: columns reindexed
by sorted name and rows sorted by all column values. -/
def canonicalize (t : Table) : Table :=
  let cols := sortByLe (fun a b => strLe a.2 b.2) t.header.enum
  { header := cols.map Prod.snd
    rows := sortByLe rowLe (t.rows.map (fun r => cols.map (fun c => r.getD c.1 ""))) }

/-- The state of one listed output file when the loop reaches it. -/
inductive FileState where
  /-- os.path.exists is false: the loop skips the entry entirely. -/
  | missing
  /-- The file exists but reading or hashing raised, or its extension is
  neither csv nor xlsx: the hash falls back to the file path. -/
  | unhashable
  /-- A readable csv table. -/
  | csv (t : Table)
deriving DecidableEq

/-- The content key stored in content_map: a canonical-content key for a
hashed table or the file path fallback. -/
inductive FileKey where
  | content (t : Table)
  | path (s : String)
deriving DecidableEq

/-- os.path.join of the output folder and a file name. -/
def joinPath (folder name : String) : String :=
  folder ++ "/" ++ name

/-- Embedding of _get_file_content_hash for a file the loop decided to
analyze: canonical content for a readable table, the unique path otherwise. -/
def file_content_hash (folder name : String) : FileState → FileKey
  | .csv t => .content (canonicalize t)
  | _ => .path (joinPath folder name)

/-- The loop state of remove_duplicate_files. -/
structure DupScanState where
  content_map : List (FileKey × String)
  files_to_keep : List String
  files_to_remove : List String

/-- One iteration of the analysis loop: a missing file is skipped; a known
hash marks the file for removal; a new hash records the file as kept. -/
def remove_duplicates_step (folder : String) (st : DupScanState)
    (f : String × FileState) : DupScanState :=
  if f.2 = .missing then st
  else
    let file_hash := file_content_hash folder f.1 f.2
    match lookupOpt st.content_map file_hash with
    | some _ => { st with files_to_remove := st.files_to_remove ++ [f.1] }
    | none =>
      { st with content_map := st.content_map ++ [(file_hash, f.1)]
                files_to_keep := st.files_to_keep ++ [f.1] }

/-- Embedding of remove_duplicate_files: run the analysis loop, then return
the original list when nothing is to be removed and the kept list otherwise;
the second component is the list of files deleted from disk. -/
def remove_duplicate_files (folder : String)
    (processed_files : List (String × FileState)) : List String × List String :=
  let final := processed_files.foldl (remove_duplicates_step folder) ⟨[], [], []⟩
  if final.files_to_remove = [] then (processed_files.map Prod.fst, final.files_to_remove)
  else (final.files_to_keep, final.files_to_remove)

/-- Recursive reference form of the analysis loop, threading the content
map, used to reason about the foldl. -/
def dup_scan (folder : String) : List (FileKey × String) →
    List (String × FileState) → List String × List String
  | _, [] => ([], [])
  | cm, f :: fs =>
    if f.2 = .missing then dup_scan folder cm fs
    else
      match lookupOpt cm (file_content_hash folder f.1 f.2) with
      | some _ =>
        let p := dup_scan folder cm fs
        (p.1, f.1 :: p.2)
      | none =>
        let p := dup_scan folder (cm ++ [(file_content_hash folder f.1 f.2, f.1)]) fs
        (f.1 :: p.1, p.2)

theorem foldl_dup_scan (folder : String) :
    ∀ (l : List (String × FileState)) (st : DupScanState),
      (l.foldl (remove_duplicates_step folder) st).files_to_keep =
        st.files_to_keep ++ (dup_scan folder st.content_map l).1 ∧
      (l.foldl (remove_duplicates_step folder) st).files_to_remove =
        st.files_to_remove ++ (dup_scan folder st.content_map l).2 := by
  intro l
  induction l with
  | nil =>
    intro st
    simp [dup_scan]
  | cons f fs ih =>
    intro st
    rw [List.foldl_cons]
    by_cases hm : f.2 = .missing
    · rw [dup_scan, if_pos hm]
      have hstep : remove_duplicates_step folder st f = st := by
        unfold remove_duplicates_step
        rw [if_pos hm]
      rw [hstep]
      exact ih st
    · rw [dup_scan, if_neg hm]
      rcases hl : lookupOpt st.content_map (file_content_hash folder f.1 f.2) with _ | prev
      · simp only []
        have hstep : remove_duplicates_step folder st f =
            { st with
              content_map := st.content_map ++ [(file_content_hash folder f.1 f.2, f.1)],
              files_to_keep := st.files_to_keep ++ [f.1] } := by
          unfold remove_duplicates_step
          rw [if_neg hm]
          simp only [hl]
        rw [hstep]
        obtain ⟨h1, h2⟩ := ih { st with
          content_map := st.content_map ++ [(file_content_hash folder f.1 f.2, f.1)],
          files_to_keep := st.files_to_keep ++ [f.1] }
        refine ⟨?_, ?_⟩
        · rw [h1]
          simp
        · rw [h2]
      · simp only []
        have hstep : remove_duplicates_step folder st f =
            { st with files_to_remove := st.files_to_remove ++ [f.1] } := by
          unfold remove_duplicates_step
          rw [if_neg hm]
          simp only [hl]
        rw [hstep]
        obtain ⟨h1, h2⟩ := ih { st with files_to_remove := st.files_to_remove ++ [f.1] }
        refine ⟨?_, ?_⟩
        · rw [h1]
        · rw [h2]
          simp

theorem dup_scan_sublist (folder : String) :
    ∀ (l : List (String × FileState)) (cm : List (FileKey × String)),
      (dup_scan folder cm l).1.Sublist (l.map Prod.fst) ∧
      (dup_scan folder cm l).2.Sublist (l.map Prod.fst) := by
  intro l
  induction l with
  | nil =>
    intro cm
    exact ⟨List.Sublist.refl _, List.Sublist.refl _⟩
  | cons f fs ih =>
    intro cm
    rw [dup_scan]
    by_cases hm : f.2 = .missing
    · rw [if_pos hm]
      exact ⟨(ih cm).1.trans (List.sublist_cons_self _ _),
        (ih cm).2.trans (List.sublist_cons_self _ _)⟩
    · rw [if_neg hm]
      rcases hl : lookupOpt cm (file_content_hash folder f.1 f.2) with _ | prev
      · exact ⟨List.Sublist.cons₂ _ (ih _).1, (ih _).2.trans (List.sublist_cons_self _ _)⟩
      · exact ⟨(ih cm).1.trans (List.sublist_cons_self _ _), List.Sublist.cons₂ _ (ih cm).2⟩

theorem dup_scan_not_mem (folder : String) {l : List (String × FileState)}
    {cm : List (FileKey × String)} {n : String} (hn : n ∉ l.map Prod.fst) :
    n ∉ (dup_scan folder cm l).1 ∧ n ∉ (dup_scan folder cm l).2 :=
  ⟨fun h => hn ((dup_scan_sublist folder l cm).1.mem h),
   fun h => hn ((dup_scan_sublist folder l cm).2.mem h)⟩

theorem dup_scan_first (folder : String) :
    ∀ (l1 : List (String × FileState)) (n : String) (fs : FileState)
      (l2 : List (String × FileState)) (cm : List (FileKey × String)),
      fs ≠ .missing →
      file_content_hash folder n fs ∉ cm.map Prod.fst →
      (∀ f ∈ l1, f.2 ≠ .missing →
        file_content_hash folder f.1 f.2 ≠ file_content_hash folder n fs) →
      n ∉ (l1 ++ l2).map Prod.fst →
      n ∈ (dup_scan folder cm (l1 ++ (n, fs) :: l2)).1 ∧
      n ∉ (dup_scan folder cm (l1 ++ (n, fs) :: l2)).2 := by
  intro l1
  induction l1 with
  | nil =>
    intro n fs l2 cm hfs hcm _ hn
    rw [List.nil_append, dup_scan, if_neg hfs]
    rw [(lookupOpt_eq_none_iff _ _).mpr hcm]
    simp only [List.nil_append, List.map_cons] at hn ⊢
    refine ⟨List.mem_cons_self _ _, ?_⟩
    exact (dup_scan_not_mem folder (by simpa using hn)).2
  | cons f l1 ih =>
    intro n fs l2 cm hfs hcm hkeys hn
    have hnf : n ≠ f.1 := by
      intro h
      exact hn (by simp [h])
    have hn1 : n ∉ (l1 ++ l2).map Prod.fst := by
      intro h
      refine hn ?_
      simp only [List.cons_append, List.map_cons, List.mem_cons]
      exact Or.inr h
    have hkeys1 : ∀ g ∈ l1, g.2 ≠ .missing →
        file_content_hash folder g.1 g.2 ≠ file_content_hash folder n fs :=
      fun g hg => hkeys g (List.mem_cons_of_mem _ hg)
    rw [List.cons_append, dup_scan]
    by_cases hm : f.2 = .missing
    · rw [if_pos hm]
      exact ih n fs l2 cm hfs hcm hkeys1 hn1
    · rw [if_neg hm]
      rcases hl : lookupOpt cm (file_content_hash folder f.1 f.2) with _ | prev
      · have hcm1 : file_content_hash folder n fs ∉
            (cm ++ [(file_content_hash folder f.1 f.2, f.1)]).map Prod.fst := by
          rw [List.map_append, List.mem_append]
          rintro (h | h)
          · exact hcm h
          · simp only [List.map_cons, List.map_nil, List.mem_singleton] at h
            exact hkeys f (List.mem_cons_self _ _) hm h.symm
        obtain ⟨h1, h2⟩ := ih n fs l2 _ hfs hcm1 hkeys1 hn1
        exact ⟨List.mem_cons_of_mem _ h1, h2⟩
      · obtain ⟨h1, h2⟩ := ih n fs l2 cm hfs hcm hkeys1 hn1
        refine ⟨h1, ?_⟩
        intro h
        rcases List.mem_cons.mp h with h | h
        · exact hnf h
        · exact h2 h

theorem dup_scan_later (folder : String) :
    ∀ (l1 : List (String × FileState)) (n : String) (fs : FileState)
      (l2 : List (String × FileState)) (cm : List (FileKey × String)),
      fs ≠ .missing →
      (file_content_hash folder n fs ∈ cm.map Prod.fst ∨
       ∃ f ∈ l1, f.2 ≠ .missing ∧
         file_content_hash folder f.1 f.2 = file_content_hash folder n fs) →
      n ∉ (l1 ++ l2).map Prod.fst →
      n ∈ (dup_scan folder cm (l1 ++ (n, fs) :: l2)).2 ∧
      n ∉ (dup_scan folder cm (l1 ++ (n, fs) :: l2)).1 := by
  intro l1
  induction l1 with
  | nil =>
    intro n fs l2 cm hfs hkey hn
    rcases hkey with hkey | ⟨f, hf, _⟩
    · rw [List.nil_append, dup_scan, if_neg hfs]
      rcases hl : lookupOpt cm (file_content_hash folder n fs) with _ | prev
      · rw [lookupOpt_eq_none_iff] at hl
        exact absurd hkey hl
      · simp only [List.nil_append, List.map_cons] at hn
        refine ⟨List.mem_cons_self _ _, ?_⟩
        exact (dup_scan_not_mem folder (by simpa using hn)).1
    · cases hf
  | cons f l1 ih =>
    intro n fs l2 cm hfs hkey hn
    have hnf : n ≠ f.1 := by
      intro h
      exact hn (by simp [h])
    have hn1 : n ∉ (l1 ++ l2).map Prod.fst := by
      intro h
      refine hn ?_
      simp only [List.cons_append, List.map_cons, List.mem_cons]
      exact Or.inr h
    rw [List.cons_append, dup_scan]
    by_cases hm : f.2 = .missing
    · rw [if_pos hm]
      refine ih n fs l2 cm hfs ?_ hn1
      rcases hkey with h | ⟨g, hg, hgm, hgk⟩
      · exact Or.inl h
      · rcases List.mem_cons.mp hg with rfl | hg
        · exact absurd hm hgm
        · exact Or.inr ⟨g, hg, hgm, hgk⟩
    · rw [if_neg hm]
      rcases hl : lookupOpt cm (file_content_hash folder f.1 f.2) with _ | prev
      · have hkey1 : file_content_hash folder n fs ∈
            (cm ++ [(file_content_hash folder f.1 f.2, f.1)]).map Prod.fst ∨
            ∃ g ∈ l1, g.2 ≠ .missing ∧
              file_content_hash folder g.1 g.2 = file_content_hash folder n fs := by
          rcases hkey with h | ⟨g, hg, hgm, hgk⟩
          · refine Or.inl ?_
            rw [List.map_append, List.mem_append]
            exact Or.inl h
          · rcases List.mem_cons.mp hg with rfl | hg
            · refine Or.inl ?_
              rw [List.map_append, List.mem_append]
              refine Or.inr ?_
              simp [hgk]
            · exact Or.inr ⟨g, hg, hgm, hgk⟩
        obtain ⟨h1, h2⟩ := ih n fs l2 _ hfs hkey1 hn1
        refine ⟨h1, ?_⟩
        intro h
        rcases List.mem_cons.mp h with h | h
        · exact hnf h
        · exact h2 h
      · have hkey1 : file_content_hash folder n fs ∈ cm.map Prod.fst ∨
            ∃ g ∈ l1, g.2 ≠ .missing ∧
              file_content_hash folder g.1 g.2 = file_content_hash folder n fs := by
          rcases hkey with h | ⟨g, hg, hgm, hgk⟩
          · exact Or.inl h
          · rcases List.mem_cons.mp hg with rfl | hg
            · refine Or.inl ?_
              rw [← hgk]
              have : ¬ (lookupOpt cm (file_content_hash folder g.1 g.2) = none) := by
                rw [hl]
                simp
              rw [lookupOpt_eq_none_iff] at this
              exact not_not.mp this
            · exact Or.inr ⟨g, hg, hgm, hgk⟩
        obtain ⟨h1, h2⟩ := ih n fs l2 cm hfs hkey1 hn1
        exact ⟨List.mem_cons_of_mem _ h1, h2⟩

theorem joinPath_injective (folder a b : String)
    (h : joinPath folder a = joinPath folder b) : a = b := by
  unfold joinPath at h
  have hd := congrArg String.data h
  simp only [String.data_append] at hd
  have hab : a.data = b.data := List.append_cancel_left hd
  cases a
  cases b
  exact congrArg String.mk hab

theorem nodup_middle_not_mem {l1 l2 : List (String × FileState)} {n : String}
    {fs : FileState} (hnd : ((l1 ++ (n, fs) :: l2).map Prod.fst).Nodup) :
    n ∉ (l1 ++ l2).map Prod.fst := by
  rw [List.map_append, List.map_cons] at hnd
  rw [List.map_append, List.mem_append]
  obtain ⟨_, hnd2, hdisj⟩ := List.nodup_append.mp hnd
  rintro (h | h)
  · exact hdisj h (List.mem_cons_self _ _)
  · exact (List.nodup_cons.mp hnd2).1 h

/-! ## Claim C10 -/

/-- Claim C10 counterexample: listing the same unreadable file twice assigns
both occurrences the same file-path key, so the second occurrence is treated
as a duplicate: the returned list keeps only the first occurrence and the
file is put on the removal list (and deleted from disk), contradicting the
claim that a file that cannot be read or hashed is never removed as a
duplicate. -/
theorem C10_duplicate_removal_counterexample :
    remove_duplicate_files "out"
        [("dup.csv", FileState.unhashable), ("dup.csv", FileState.unhashable)] =
      (["dup.csv"], ["dup.csv"]) := by decide

/-- Claim C10 (amended): for a list of distinct filenames all present on
disk, remove_duplicate_files returns an order-preserving subsequence of the
input names in which, per canonical content key (table with columns and rows
sorted; file path for an unhashable file), exactly the first occurrence is
kept and each later occurrence is deleted from disk; an unreadable file is
keyed by its unique path and is therefore never removed as a duplicate.  A
repeated identical filename would share its path key and be collapsed like
any other duplicate, which the counterexample exhibits. -/
theorem C10_duplicate_removal_amended :
    ∀ (folder : String) (files : List (String × FileState)),
      (∀ f ∈ files, f.2 ≠ FileState.missing) →
      (files.map Prod.fst).Nodup →
      ((remove_duplicate_files folder files).1.Sublist (files.map Prod.fst)) ∧
      (∀ (l1 : List (String × FileState)) (n : String) (fs : FileState)
          (l2 : List (String × FileState)),
        files = l1 ++ (n, fs) :: l2 →
        (∀ f ∈ l1, file_content_hash folder f.1 f.2 ≠ file_content_hash folder n fs) →
        n ∈ (remove_duplicate_files folder files).1 ∧
        n ∉ (remove_duplicate_files folder files).2) ∧
      (∀ (l1 : List (String × FileState)) (n : String) (fs : FileState)
          (l2 : List (String × FileState)),
        files = l1 ++ (n, fs) :: l2 →
        (∃ f ∈ l1, file_content_hash folder f.1 f.2 = file_content_hash folder n fs) →
        n ∈ (remove_duplicate_files folder files).2 ∧
        n ∉ (remove_duplicate_files folder files).1) ∧
      (∀ n : String, (n, FileState.unhashable) ∈ files →
        n ∈ (remove_duplicate_files folder files).1 ∧
        n ∉ (remove_duplicate_files folder files).2) := by
  intro folder files hnomiss hnd
  have hfold := foldl_dup_scan folder files ⟨[], [], []⟩
  have hkeep : (files.foldl (remove_duplicates_step folder) ⟨[], [], []⟩).files_to_keep =
      (dup_scan folder [] files).1 := by simpa using hfold.1
  have hrem : (files.foldl (remove_duplicates_step folder) ⟨[], [], []⟩).files_to_remove =
      (dup_scan folder [] files).2 := by simpa using hfold.2
  have hR2 : (remove_duplicate_files folder files).2 = (dup_scan folder [] files).2 := by
    unfold remove_duplicate_files
    by_cases hc : (files.foldl (remove_duplicates_step folder)
        ⟨[], [], []⟩).files_to_remove = []
    · rw [if_pos hc]
      exact hrem
    · rw [if_neg hc]
      exact hrem
  have hR1 : (remove_duplicate_files folder files).1 = files.map Prod.fst ∨
      ((remove_duplicate_files folder files).1 = (dup_scan folder [] files).1 ∧
        (dup_scan folder [] files).2 ≠ []) := by
    unfold remove_duplicate_files
    by_cases hc : (files.foldl (remove_duplicates_step folder)
        ⟨[], [], []⟩).files_to_remove = []
    · rw [if_pos hc]
      exact Or.inl rfl
    · rw [if_neg hc]
      refine Or.inr ⟨hkeep, ?_⟩
      rw [← hrem]
      exact hc
  have hfirst : ∀ (l1 : List (String × FileState)) (n : String) (fs : FileState)
      (l2 : List (String × FileState)),
      files = l1 ++ (n, fs) :: l2 →
      (∀ f ∈ l1, file_content_hash folder f.1 f.2 ≠ file_content_hash folder n fs) →
      n ∈ (remove_duplicate_files folder files).1 ∧
      n ∉ (remove_duplicate_files folder files).2 := by
    intro l1 n fs l2 hsplit hkeys
    have hfs : fs ≠ .missing := by
      refine hnomiss (n, fs) ?_
      rw [hsplit]
      exact List.mem_append.mpr (Or.inr (List.mem_cons_self _ _))
    have hnmem : n ∉ (l1 ++ l2).map Prod.fst :=
      nodup_middle_not_mem (hsplit ▸ hnd)
    obtain ⟨h1, h2⟩ := dup_scan_first folder l1 n fs l2 [] hfs (by simp)
      (fun f hf _ => hkeys f hf) hnmem
    rw [← hsplit] at h1 h2
    refine ⟨?_, ?_⟩
    · rcases hR1 with h | ⟨h, _⟩
      · rw [h, hsplit]
        simp
      · rw [h]
        exact h1
    · rw [hR2]
      exact h2
  refine ⟨?_, hfirst, ?_, ?_⟩
  · rcases hR1 with h | ⟨h, _⟩
    · rw [h]
    · rw [h]
      exact (dup_scan_sublist folder files []).1
  · intro l1 n fs l2 hsplit hdup
    have hfs : fs ≠ .missing := by
      refine hnomiss (n, fs) ?_
      rw [hsplit]
      exact List.mem_append.mpr (Or.inr (List.mem_cons_self _ _))
    have hnmem : n ∉ (l1 ++ l2).map Prod.fst :=
      nodup_middle_not_mem (hsplit ▸ hnd)
    obtain ⟨f, hf, hfk⟩ := hdup
    have hfm : f.2 ≠ .missing := by
      refine hnomiss f ?_
      rw [hsplit]
      exact List.mem_append.mpr (Or.inl hf)
    obtain ⟨h1, h2⟩ := dup_scan_later folder l1 n fs l2 [] hfs
      (Or.inr ⟨f, hf, hfm, hfk⟩) hnmem
    rw [← hsplit] at h1 h2
    refine ⟨?_, ?_⟩
    · rw [hR2]
      exact h1
    · rcases hR1 with h | ⟨h, _⟩
      · exfalso
        have hne : (dup_scan folder [] files).2 ≠ [] := by
          intro hnil
          rw [hnil] at h1
          cases h1
        unfold remove_duplicate_files at h
        by_cases hc : (files.foldl (remove_duplicates_step folder)
            ⟨[], [], []⟩).files_to_remove = []
        · rw [hrem] at hc
          exact hne hc
        · rw [if_neg hc] at h
          rw [hkeep] at h
          rw [h] at h2
          refine h2 ?_
          rw [hsplit]
          simp
      · rw [h]
        exact h2
  · intro n hmem
    obtain ⟨l1, l2, hsplit⟩ := List.append_of_mem hmem
    refine hfirst l1 n FileState.unhashable l2 hsplit ?_
    intro f hf hk
    have hfm : f.2 ≠ .missing := by
      refine hnomiss f ?_
      rw [hsplit]
      exact List.mem_append.mpr (Or.inl hf)
    have hnmem : n ∉ (l1 ++ l2).map Prod.fst :=
      nodup_middle_not_mem (hsplit ▸ hnd)
    obtain ⟨fname, fstate⟩ := f
    cases fstate with
    | missing => exact hfm rfl
    | csv t => simp [file_content_hash] at hk
    | unhashable =>
      simp only [file_content_hash, FileKey.path.injEq] at hk
      have hfn : fname = n := joinPath_injective folder fname n hk
      refine hnmem ?_
      rw [List.map_append, List.mem_append]
      exact Or.inl (List.mem_map.mpr ⟨(fname, FileState.unhashable), hf, hfn⟩)

/-- Witness for C10 at a concrete batch: two csv files whose tables are
column and row permutations of each other share a canonical content key, so
the second is removed, while an unreadable third file keyed by its path is
kept and never deleted. -/
theorem C10_duplicate_removal_amended_witness :
    ("b.csv" ∈ (remove_duplicate_files "out"
        [("a.csv", FileState.csv ⟨["B", "A"], [["2", "1"]]⟩),
         ("b.csv", FileState.csv ⟨["A", "B"], [["1", "2"]]⟩),
         ("u.csv", FileState.unhashable)]).2 ∧
      "b.csv" ∉ (remove_duplicate_files "out"
        [("a.csv", FileState.csv ⟨["B", "A"], [["2", "1"]]⟩),
         ("b.csv", FileState.csv ⟨["A", "B"], [["1", "2"]]⟩),
         ("u.csv", FileState.unhashable)]).1) ∧
    ("u.csv" ∈ (remove_duplicate_files "out"
        [("a.csv", FileState.csv ⟨["B", "A"], [["2", "1"]]⟩),
         ("b.csv", FileState.csv ⟨["A", "B"], [["1", "2"]]⟩),
         ("u.csv", FileState.unhashable)]).1 ∧
      "u.csv" ∉ (remove_duplicate_files "out"
        [("a.csv", FileState.csv ⟨["B", "A"], [["2", "1"]]⟩),
         ("b.csv", FileState.csv ⟨["A", "B"], [["1", "2"]]⟩),
         ("u.csv", FileState.unhashable)]).2) :=
  ⟨(C10_duplicate_removal_amended "out"
      [("a.csv", FileState.csv ⟨["B", "A"], [["2", "1"]]⟩),
       ("b.csv", FileState.csv ⟨["A", "B"], [["1", "2"]]⟩),
       ("u.csv", FileState.unhashable)] (by decide) (by decide)).2.2.1
      [("a.csv", FileState.csv ⟨["B", "A"], [["2", "1"]]⟩)]
      "b.csv" (FileState.csv ⟨["A", "B"], [["1", "2"]]⟩)
      [("u.csv", FileState.unhashable)] rfl
      ⟨("a.csv", FileState.csv ⟨["B", "A"], [["2", "1"]]⟩), by decide, by decide⟩,
   (C10_duplicate_removal_amended "out"
      [("a.csv", FileState.csv ⟨["B", "A"], [["2", "1"]]⟩),
       ("b.csv", FileState.csv ⟨["A", "B"], [["1", "2"]]⟩),
       ("u.csv", FileState.unhashable)] (by decide) (by decide)).2.2.2
      "u.csv" (by decide)⟩

end DataPrep
